import Mathlib

/-!
Shallow embedding of the Sankey layout core of `chartjs-sankey` (src/index.js):
edge validation (`isValidFlow`), node aggregation (`buildNodes`), BFS level
assignment with pins (`assignNodeLevels`), level grouping (`groupByLevel`),
barycenter reordering (`reorderNodes`), node positioning (`_positionNodes`),
flow-band routing (`_computeFlows`) and band hit testing
(`FlowElement.inRange`).

JavaScript `Map` objects (insertion ordered) are embedded as association
lists with first-match lookup and order-preserving update; JS numbers are
embedded as exact rationals `ℚ`; `Infinity` sentinels are embedded as
`Option`/`WithTop` values.  All definitions are executable.
-/

namespace Sankey

/-- First-match lookup in an association list (embeds `Map.get` /
`Map.has`). -/
def lookupA {α β : Type} [DecidableEq α] : List (α × β) → α → Option β
  | [], _ => none
  | (k', v) :: rest, k => if k' = k then some v else lookupA rest k

/-- Order-preserving insert-or-update (embeds `Map.set`): an existing key is
updated in place, a new key is appended at the end. -/
def setA {α β : Type} [DecidableEq α] : List (α × β) → α → β → List (α × β)
  | [], k, v => [(k, v)]
  | (k', v') :: rest, k, v =>
    if k' = k then (k, v) :: rest else (k', v') :: setA rest k v

theorem lookupA_setA_self {α β : Type} [DecidableEq α]
    (m : List (α × β)) (k : α) (v : β) : lookupA (setA m k v) k = some v := by
  induction m with
  | nil => simp [setA, lookupA]
  | cons p rest ih =>
    by_cases h : p.1 = k
    · simp [setA, lookupA, h]
    · simp [setA, lookupA, h, ih]

theorem lookupA_setA_ne {α β : Type} [DecidableEq α]
    (m : List (α × β)) (k k' : α) (v : β) (h : k ≠ k') :
    lookupA (setA m k v) k' = lookupA m k' := by
  induction m with
  | nil => simp [setA, lookupA, h]
  | cons p rest ih =>
    by_cases hp : p.1 = k
    · simp [setA, lookupA, hp, h]
    · simp [setA, lookupA, hp, ih]

theorem lookupA_setA {α β : Type} [DecidableEq α]
    (m : List (α × β)) (k k' : α) (v : β) :
    lookupA (setA m k v) k' = if k = k' then some v else lookupA m k' := by
  by_cases h : k = k'
  · subst h; simp [lookupA_setA_self]
  · simp [h, lookupA_setA_ne m k k' v h]

theorem setA_keys_of_mem {α β : Type} [DecidableEq α]
    (m : List (α × β)) (k : α) (v : β) (h : k ∈ m.map Prod.fst) :
    (setA m k v).map Prod.fst = m.map Prod.fst := by
  induction m with
  | nil => simp at h
  | cons p rest ih =>
    by_cases hp : p.1 = k
    · simp [setA, hp]
    · simp only [List.map_cons, List.mem_cons] at h
      rcases h with h | h
      · exact absurd h.symm hp
      · simp [setA, hp, ih h]

/-- Embeds the Sankey data point `{from, to, flow}` (color fields are
rendering-only configuration and play no role in the layout claims). -/
structure Flow where
  «from» : String
  «to» : String
  flow : ℚ
deriving DecidableEq, Repr

/-- Embeds `isValidFlow` (src/index.js): non-empty endpoint names and a
strictly positive flow.  The JS dynamic-type and finiteness checks are
expressed by the `String`/`ℚ` typing of `Flow`. -/
def isValidFlow (dp : Flow) : Bool :=
  dp.«from».length > 0 && dp.«to».length > 0 && decide (dp.flow > 0)

/-- Embeds the node record of `buildNodes`. -/
structure Node where
  id : String
  incoming : ℚ
  outgoing : ℚ
  value : ℚ
deriving DecidableEq, Repr

/-- Embeds `if (!nodes.has(id)) nodes.set(id, {id, incoming: 0, outgoing: 0,
value: 0})` from `buildNodes`. -/
def ensureA (m : List (String × Node)) (k : String) : List (String × Node) :=
  if (lookupA m k).isSome then m else setA m k ⟨k, 0, 0, 0⟩

/-- One accumulation step of `buildNodes` for a single flow: ensure entries
for both endpoints, then add the weight to the source's `outgoing` and the
target's `incoming`. -/
def buildNodesStep (nodes : List (String × Node)) (f : Flow) :
    List (String × Node) :=
  let n2 := ensureA (ensureA nodes f.«from») f.«to»
  let n3 := match lookupA n2 f.«from» with
            | some n => setA n2 f.«from» { n with outgoing := n.outgoing + f.flow }
            | none => n2
  match lookupA n3 f.«to» with
  | some n => setA n3 f.«to» { n with incoming := n.incoming + f.flow }
  | none => n3

/-- Embeds `node.value = Math.max(node.incoming, node.outgoing)` from
`buildNodes`. -/
def finalizeNode (n : Node) : Node :=
  { n with value := max n.incoming n.outgoing }

/-- Embeds `buildNodes` (src/index.js): accumulate incoming/outgoing totals
in input order, then set `value = max(incoming, outgoing)` on every node. -/
def buildNodes (data : List Flow) : List (String × Node) :=
  (data.foldl buildNodesStep []).map (fun p => (p.1, finalizeNode p.2))

/-- Sum of the weights of the flows entering `id`. -/
def incomingSum (data : List Flow) (id : String) : ℚ :=
  ((data.filter (fun f => f.«to» = id)).map Flow.flow).sum

/-- Sum of the weights of the flows leaving `id`. -/
def outgoingSum (data : List Flow) (id : String) : ℚ :=
  ((data.filter (fun f => f.«from» = id)).map Flow.flow).sum

theorem lookupA_ensureA (m : List (String × Node)) (k id : String) :
    lookupA (ensureA m k) id =
      if k = id then some ((lookupA m id).getD ⟨id, 0, 0, 0⟩)
      else lookupA m id := by
  unfold ensureA
  by_cases hk : k = id
  · subst hk
    cases h : lookupA m k with
    | some n => simp [h]
    | none => simp [h, lookupA_setA_self]
  · cases h : lookupA m k with
    | some n => simp [h, hk]
    | none => simp [h, hk, lookupA_setA_ne m k id _ hk]

theorem lookupA_buildNodesStep (acc : List (String × Node)) (f : Flow)
    (id : String) :
    lookupA (buildNodesStep acc f) id =
      match lookupA acc id with
      | some n => some { n with
          incoming := n.incoming + (if f.«to» = id then f.flow else 0),
          outgoing := n.outgoing + (if f.«from» = id then f.flow else 0) }
      | none =>
          if f.«from» = id ∨ f.«to» = id then
            some ⟨id, (if f.«to» = id then f.flow else 0),
                      (if f.«from» = id then f.flow else 0), 0⟩
          else none := by
  by_cases hfi : f.«from» = id
  · by_cases hti : f.«to» = id
    · cases hacc : lookupA acc id <;>
        simp [buildNodesStep, lookupA_ensureA, lookupA_setA, hfi, hti, hacc]
    · cases hacc : lookupA acc id <;>
        simp [buildNodesStep, lookupA_ensureA, lookupA_setA, hfi, hti,
          Ne.symm hti, hacc]
  · by_cases hti : f.«to» = id
    · cases hacc : lookupA acc id <;>
        simp [buildNodesStep, lookupA_ensureA, lookupA_setA, hfi,
          Ne.symm hfi, hti, hacc]
    · by_cases hft : f.«from» = f.«to» <;>
        cases hacc : lookupA acc id <;>
          simp [buildNodesStep, lookupA_ensureA, lookupA_setA, hfi,
            Ne.symm hfi, hti, Ne.symm hti, hft, hacc]

theorem lookupA_foldl_buildNodesStep :
    ∀ (data : List Flow) (acc : List (String × Node)) (id : String),
    lookupA (data.foldl buildNodesStep acc) id =
      match lookupA acc id with
      | some n => some { n with
          incoming := n.incoming + incomingSum data id,
          outgoing := n.outgoing + outgoingSum data id }
      | none =>
          if ∃ f ∈ data, f.«from» = id ∨ f.«to» = id then
            some ⟨id, incomingSum data id, outgoingSum data id, 0⟩
          else none := by
  intro data
  induction data with
  | nil =>
    intro acc id
    cases hacc : lookupA acc id <;> simp [incomingSum, outgoingSum, hacc]
  | cons f rest ih =>
    intro acc id
    rw [List.foldl_cons, ih (buildNodesStep acc f) id, lookupA_buildNodesStep]
    by_cases hfi : f.«from» = id <;> by_cases hti : f.«to» = id <;>
      cases hacc : lookupA acc id <;>
        simp [incomingSum, outgoingSum, hfi, hti, hacc, List.filter_cons] <;>
          ring_nf <;> simp [add_comm]

theorem lookupA_map_value {α β γ : Type} [DecidableEq α] (g : β → γ) :
    ∀ (m : List (α × β)) (k : α),
    lookupA (m.map (fun p => (p.1, g p.2))) k = (lookupA m k).map g := by
  intro m
  induction m with
  | nil => intro k; simp [lookupA]
  | cons p rest ih =>
    intro k
    by_cases h : p.1 = k <;> simp [lookupA, h, ih]

/-- Closed form for `buildNodes`: the entry of `id` exists iff `id` occurs as
an endpoint, and carries the exact incoming/outgoing sums and their max. -/
theorem buildNodes_lookup (data : List Flow) (id : String) :
    lookupA (buildNodes data) id =
      if ∃ f ∈ data, f.«from» = id ∨ f.«to» = id then
        some ⟨id, incomingSum data id, outgoingSum data id,
              max (incomingSum data id) (outgoingSum data id)⟩
      else none := by
  unfold buildNodes
  rw [lookupA_map_value finalizeNode, lookupA_foldl_buildNodesStep]
  simp only [lookupA]
  split <;> simp [finalizeNode]

theorem setA_keys_of_not_mem {α β : Type} [DecidableEq α]
    (m : List (α × β)) (k : α) (v : β) (h : k ∉ m.map Prod.fst) :
    (setA m k v).map Prod.fst = m.map Prod.fst ++ [k] := by
  induction m with
  | nil => simp [setA]
  | cons p rest ih =>
    simp only [List.map_cons, List.mem_cons, not_or] at h
    have hne : p.1 ≠ k := fun hh => h.1 hh.symm
    simp [setA, hne, ih h.2]

theorem setA_nodupKeys {α β : Type} [DecidableEq α]
    {m : List (α × β)} (k : α) (v : β) (h : (m.map Prod.fst).Nodup) :
    ((setA m k v).map Prod.fst).Nodup := by
  by_cases hk : k ∈ m.map Prod.fst
  · rw [setA_keys_of_mem m k v hk]; exact h
  · rw [setA_keys_of_not_mem m k v hk]
    refine List.Nodup.append h (List.nodup_singleton k) ?_
    intro a ha hb
    rw [List.mem_singleton] at hb
    subst hb; exact hk ha

theorem ensureA_nodupKeys {m : List (String × Node)} (k : String)
    (h : (m.map Prod.fst).Nodup) : ((ensureA m k).map Prod.fst).Nodup := by
  unfold ensureA
  split
  · exact h
  · exact setA_nodupKeys k _ h

theorem buildNodesStep_nodupKeys (acc : List (String × Node)) (f : Flow)
    (h : (acc.map Prod.fst).Nodup) :
    ((buildNodesStep acc f).map Prod.fst).Nodup := by
  unfold buildNodesStep
  dsimp only
  split <;> split <;>
    repeat
      first
      | apply setA_nodupKeys
      | apply ensureA_nodupKeys
      | exact h

theorem buildNodes_nodupKeys (data : List Flow) :
    ((buildNodes data).map Prod.fst).Nodup := by
  have step : ∀ (acc : List (String × Node)),
      (acc.map Prod.fst).Nodup →
      (((data.foldl buildNodesStep acc)).map Prod.fst).Nodup := by
    induction data with
    | nil => intro acc h; exact h
    | cons f rest ih =>
      intro acc h
      exact ih (buildNodesStep acc f) (buildNodesStep_nodupKeys acc f h)
  unfold buildNodes
  have := step [] (by simp)
  simpa [List.map_map, Function.comp] using this

/-- One pin entry of `assignNodeLevels` (src/index.js 89-99): if the entry
has a non-null column and its id exists in `nodes`, set the pinned level,
mark the id visited and seed the queue with its successors at `column + 1`;
otherwise leave the state `(levels, visited, queue)` unchanged. -/
def pinStep (data : List Flow) (nodes : List (String × Node))
    (acc : List (String × ℤ) × List String × List (String × ℤ))
    (entry : String × Option ℤ) :
    List (String × ℤ) × List String × List (String × ℤ) :=
  match entry.2 with
  | some c =>
    if (lookupA nodes entry.1).isSome then
      (setA acc.1 entry.1 c, acc.2.1 ++ [entry.1],
       acc.2.2 ++ (data.filter (fun f => decide (f.«from» = entry.1))).map
         (fun f => (f.«to», c + 1)))
    else acc
  | none => acc

/-- Pin phase of `assignNodeLevels` (src/index.js 86-100): fold `pinStep`
over the config entries starting from the empty state. -/
def pinPhase (data : List Flow) (nodes : List (String × Node))
    (nodeConfig : List (String × Option ℤ)) :
    List (String × ℤ) × List String × List (String × ℤ) :=
  nodeConfig.foldl (pinStep data nodes) ([], [], [])

/-- Root candidates (src/index.js 102-107): node-map keys that are neither
visited (pinned) nor the target of any edge. -/
def rootsOf (data : List Flow) (nodes : List (String × Node))
    (visited : List String) : List String :=
  (nodes.map Prod.fst).filter
    (fun id => decide (id ∉ visited ∧ id ∉ data.map Flow.«to»))

/-- Synthetic-root fallback (src/index.js 109-117): with no roots and an
empty queue, the first unvisited node-map key becomes the only root. -/
def syntheticRoots (nodes : List (String × Node)) (visited : List String)
    (roots : List String) (queue : List (String × ℤ)) : List String :=
  if roots = [] ∧ queue = [] then
    match (nodes.map Prod.fst).find? (fun id => decide (id ∉ visited)) with
    | some id => [id]
    | none => []
  else roots

/-- Measure for the BFS loop: pending ids that can still become visited. -/
def bfsMeasure (data : List Flow) (visited : List String)
    (queue : List (String × ℤ)) : ℕ :=
  (((data.map Flow.«to»).toFinset ∪ (queue.map Prod.fst).toFinset)
    \ visited.toFinset).card

theorem bfsMeasure_skip_le (data : List Flow) (visited : List String)
    (id : String) (level : ℤ) (rest : List (String × ℤ)) :
    bfsMeasure data visited rest ≤
      bfsMeasure data visited ((id, level) :: rest) := by
  apply Finset.card_le_card
  apply Finset.sdiff_subset_sdiff _ le_rfl
  apply Finset.union_subset_union le_rfl
  intro x hx
  simp only [List.mem_toFinset, List.mem_map] at hx ⊢
  obtain ⟨p, hp, hpx⟩ := hx
  exact ⟨p, List.mem_cons_of_mem _ hp, hpx⟩

theorem bfsMeasure_visit_lt (data : List Flow) (visited : List String)
    (id : String) (level : ℤ) (rest : List (String × ℤ))
    (h : id ∉ visited) :
    bfsMeasure data (id :: visited)
        (rest ++ (data.filter
          (fun f => decide (f.«from» = id ∧ f.«to» ∉ id :: visited))).map
          (fun f => (f.«to», level + 1))) <
      bfsMeasure data visited ((id, level) :: rest) := by
  apply Finset.card_lt_card
  rw [Finset.ssubset_iff_of_subset]
  · refine ⟨id, ?_, ?_⟩
    · simp [bfsMeasure, h]
    · simp [bfsMeasure]
  · apply Finset.sdiff_subset_sdiff
    · intro x hx
      simp only [Finset.mem_union, List.mem_toFinset, List.mem_map,
        List.mem_append, List.mem_cons] at hx ⊢
      rcases hx with hx | ⟨p, hp, hpx⟩
      · exact Or.inl hx
      · rcases hp with hp | hp
        · exact Or.inr ⟨p, Or.inr hp, hpx⟩
        · obtain ⟨f, hf, rfl⟩ := hp
          exact Or.inl ⟨f, (List.mem_filter.mp hf).1, hpx⟩
    · intro x hx
      simp only [List.mem_toFinset, List.mem_cons] at hx ⊢
      exact Or.inr hx

/-- BFS loop of `assignNodeLevels` (src/index.js 124-137): pop `(id, level)`;
if unvisited, record the level and enqueue unvisited successors at
`level + 1`.  The JS index-pointer queue is embedded as the unprocessed
suffix of the queue list. -/
def bfs (data : List Flow) :
    List String → List (String × ℤ) → List (String × ℤ) → List (String × ℤ)
  | _, levels, [] => levels
  | visited, levels, (id, level) :: rest =>
    if h : id ∈ visited then bfs data visited levels rest
    else
      let visited' := id :: visited
      let levels' := setA levels id level
      let newItems := (data.filter
          (fun f => decide (f.«from» = id ∧ f.«to» ∉ visited'))).map
          (fun f => (f.«to», level + 1))
      bfs data visited' levels' (rest ++ newItems)
termination_by visited _ queue => (bfsMeasure data visited queue, queue.length)
decreasing_by
· rcases lt_or_eq_of_le (bfsMeasure_skip_le data visited id level rest)
    with hlt | heq
  · exact Prod.Lex.left _ _ hlt
  · rw [heq]; exact Prod.Lex.right _ (Nat.lt_succ_self _)
· exact Prod.Lex.left _ _ (bfsMeasure_visit_lt data visited id level rest h)

/-- Levels after pins, root selection and BFS (src/index.js 82-137), before
the unresolved-node fallback pass. -/
def levelsAfterBFS (data : List Flow) (nodes : List (String × Node))
    (nodeConfig : List (String × Option ℤ)) : List (String × ℤ) :=
  let st := pinPhase data nodes nodeConfig
  let roots := syntheticRoots nodes st.2.1 (rootsOf data nodes st.2.1) st.2.2
  bfs data st.2.1 st.1 (st.2.2 ++ roots.map (fun id => (id, 0)))

/-- `maxIncomingLevel >= 0 ? maxIncomingLevel + 1 : 0` over the predecessors
of `id` that already have a level (src/index.js 142-148). -/
def fallbackLevel (data : List Flow) (levels : List (String × ℤ))
    (id : String) : ℤ :=
  let m := data.foldl
    (fun m f =>
      if f.«to» = id then
        match lookupA levels f.«from» with
        | some l => max m l
        | none => m
      else m)
    (-1 : ℤ)
  if m ≥ 0 then m + 1 else 0

/-- One iteration of the post-BFS fallback pass (src/index.js 140-150). -/
def fallbackStep (data : List Flow) (levels : List (String × ℤ))
    (id : String) : List (String × ℤ) :=
  if (lookupA levels id).isSome then levels
  else setA levels id (fallbackLevel data levels id)

/-- Embeds `assignNodeLevels` (src/index.js): pin phase, BFS from roots (or
a synthetic root), then one fallback pass over the node map in order. -/
def assignNodeLevels (data : List Flow) (nodes : List (String × Node))
    (nodeConfig : List (String × Option ℤ)) : List (String × ℤ) :=
  (nodes.map Prod.fst).foldl (fallbackStep data)
    (levelsAfterBFS data nodes nodeConfig)

/-- One entry of `groupByLevel`: append the node id to its level's bucket,
creating the bucket if needed. -/
def groupStep (groups : List (ℤ × List String)) (p : String × ℤ) :
    List (ℤ × List String) :=
  match lookupA groups p.2 with
  | some l => setA groups p.2 (l ++ [p.1])
  | none => setA groups p.2 [p.1]

/-- Embeds `groupByLevel` (src/index.js): append each node id to its level's
bucket, creating buckets in first-seen level order. -/
def groupByLevel (levels : List (String × ℤ)) : List (ℤ × List String) :=
  levels.foldl groupStep []

/-- Successor adjacency (the `outgoing` map of `reorderNodes`): targets of
the edges leaving `id`, in input order. -/
def outgoingAdj (data : List Flow) (id : String) : List String :=
  (data.filter (fun f => decide (f.«from» = id))).map Flow.«to»

/-- Predecessor adjacency (the `incoming` map of `reorderNodes`): sources of
the edges entering `id`, in input order. -/
def incomingAdj (data : List Flow) (id : String) : List String :=
  (data.filter (fun f => decide (f.«to» = id))).map Flow.«from»

/-- The `posIndex` map of `reorderNodes`: index of each id within the
adjacent column (later occurrences overwrite, as with `Map.set`). -/
def posIndexOf (adjNodes : List String) : List (String × ℕ) :=
  adjNodes.enum.foldl (fun m p => setA m p.2 p.1) []

/-- Barycenter of a node (src/index.js 200-205): mean index of its
neighbors present in the adjacent column, `+Infinity` (`⊤`) if none. -/
def barycenter (posIndex : List (String × ℕ)) (neighbors : List String) :
    WithTop ℚ :=
  let positions := (neighbors.filter
      (fun n => (lookupA posIndex n).isSome)).map
      (fun n => (((lookupA posIndex n).getD 0 : ℕ) : ℚ))
  if positions.length > 0 then (positions.sum / positions.length : ℚ) else ⊤

/-- The column re-sort of `reorderNodes` (src/index.js 209): JS
`Array.prototype.sort` with comparator `(a, b) => a.barycenter - b.barycenter`
is a stable ascending sort in which `+Infinity` is largest and an
`Infinity - Infinity = NaN` comparator result ties; a stable insertion sort
by `≤` on `WithTop ℚ` realizes exactly this. -/
def sortByBarycenter (entries : List (String × WithTop ℚ)) :
    List (String × WithTop ℚ) :=
  entries.insertionSort (fun a b => a.2 ≤ b.2)

/-- One column step of a `reorderNodes` pass (src/index.js 185-211). -/
def reorderColumn (data : List Flow) (nodesByLevel : List (ℤ × List String))
    (pass : ℕ) (level : ℤ) : List (ℤ × List String) :=
  match lookupA nodesByLevel level with
  | none => nodesByLevel
  | some nodeIds =>
    if nodeIds.length ≤ 1 then nodesByLevel
    else
      let adjLevel := if pass = 0 then level - 1 else level + 1
      match lookupA nodesByLevel adjLevel with
      | none => nodesByLevel
      | some adjNodes =>
        let posIndex := posIndexOf adjNodes
        let entries := nodeIds.map (fun id =>
          (id, barycenter posIndex
            (if pass = 0 then incomingAdj data id else outgoingAdj data id)))
        setA nodesByLevel level ((sortByBarycenter entries).map Prod.fst)

/-- Embeds `reorderNodes` (src/index.js): two barycenter passes, forward
over ascending levels against `level - 1`, then backward over descending
levels against `level + 1`.  The in-place mutation is embedded by threading
the updated map. -/
def reorderNodes (nodesByLevel : List (ℤ × List String)) (data : List Flow) :
    List (ℤ × List String) :=
  let sortedLevels := (nodesByLevel.map Prod.fst).insertionSort (· ≤ ·)
  let afterPass0 := sortedLevels.foldl
    (fun nbl level => reorderColumn data nbl 0 level) nodesByLevel
  sortedLevels.reverse.foldl
    (fun nbl level => reorderColumn data nbl 1 level) afterPass0

/-- Chart orientation (`dataset.orientation`). -/
inductive Orientation
  | horizontal
  | vertical
deriving DecidableEq, Repr

/-- Embeds the geometric fields of `FlowElement` used by `inRange`
(src/index.js 294-317).  `x, y, x2, y2` are modelled as present (the
JS `x == null || x2 == null` guard returns `false` for unset elements and
is outside the geometric claims); `height`/`height2` keep their JS
nullability (`height || 0`, `height2 != null ? height2 : h1`). -/
structure FlowElement where
  x : ℚ
  y : ℚ
  x2 : ℚ
  y2 : ℚ
  height : Option ℚ
  height2 : Option ℚ
  orientation : Orientation
deriving DecidableEq, Repr

/-- Embeds `FlowElement.inRange` (src/index.js 294-317). -/
def FlowElement.inRange (e : FlowElement) (mouseX mouseY : ℚ) : Bool :=
  let h1 := e.height.getD 0
  let h2 := e.height2.getD h1
  match e.orientation with
  | .vertical =>
    if e.y2 = e.y then false
    else if mouseY < min e.y e.y2 ∨ mouseY > max e.y e.y2 then false
    else
      let t := (mouseY - e.y) / (e.y2 - e.y)
      let centerX := e.x + t * (e.x2 - e.x)
      let h := h1 + t * (h2 - h1)
      decide (mouseX ≥ centerX - h / 2 ∧ mouseX ≤ centerX + h / 2)
  | .horizontal =>
    if e.x2 = e.x then false
    else if mouseX < e.x ∨ mouseX > e.x2 then false
    else
      let t := (mouseX - e.x) / (e.x2 - e.x)
      let centerY := e.y + t * (e.y2 - e.y)
      let h := h1 + t * (h2 - h1)
      decide (mouseY ≥ centerY - h / 2 ∧ mouseY ≤ centerY + h / 2)

/-- The chart drawing rectangle (`this.chart.chartArea`). -/
structure ChartArea where
  left : ℚ
  right : ℚ
  top : ℚ
  bottom : ℚ
deriving DecidableEq, Repr

/-- Embeds the per-node geometry records of `_positionNodes`. -/
structure NodeGeom where
  x : ℚ
  y : ℚ
  width : ℚ
  height : ℚ
  value : ℚ
deriving DecidableEq, Repr

/-- `nodes.get(id).value`.  A missing id is a JS `TypeError` and outside the
modelled domain (the pipeline only positions ids present in `nodes`); the
embedding totalizes it with 0. -/
def nodeValueOf (nodes : List (String × Node)) (id : String) : ℚ :=
  ((lookupA nodes id).map Node.value).getD 0

/-- One column of the scale loop of `_positionNodes` (src/index.js 642-650):
`scale = Math.min(scale, available / totalValue)` when the column has
positive total value and positive available space, with the JS `Infinity`
start embedded as the `none` state. -/
def scaleStep (nodes : List (String × Node))
    (nodeAxisLength nodePadding : ℚ) (s : Option ℚ)
    (col : ℤ × List String) : Option ℚ :=
  let totalValue := (col.2.map (nodeValueOf nodes)).sum
  let padding := ((max 0 ((col.2.length : ℤ) - 1) : ℤ) : ℚ) * nodePadding
  let available := nodeAxisLength - padding
  if 0 < totalValue ∧ 0 < available then
    some (match s with
      | none => available / totalValue
      | some m => min m (available / totalValue))
  else s

/-- Global scale of `_positionNodes` (src/index.js 640-651): minimum over
columns with positive total value and positive available space of
`available / totalValue`; a non-finite (`none`) or non-positive result
falls back to 1. -/
def scaleOf (nodes : List (String × Node))
    (nodesByLevel : List (ℤ × List String))
    (nodeAxisLength nodePadding : ℚ) : ℚ :=
  match nodesByLevel.foldl (scaleStep nodes nodeAxisLength nodePadding) none with
  | none => 1
  | some m => if m ≤ 0 then 1 else m

/-- One node placement of `_positionNodes` (src/index.js 670-690): set the
node's geometry at the running stack position `st.2` and advance it by the
node's thickness plus padding.  Field meanings are axis-swapped in vertical
orientation, as in the source. -/
def placeNode (nodes : List (String × Node))
    (scale nodeWidth nodePadding : ℚ) (orientation : Orientation)
    (levelPos : ℚ) (st : List (String × NodeGeom) × ℚ) (id : String) :
    List (String × NodeGeom) × ℚ :=
  let h := max 4 (nodeValueOf nodes id * scale)
  let positions' :=
    if orientation = .vertical then
      setA st.1 id ⟨st.2, levelPos, h, nodeWidth, nodeValueOf nodes id⟩
    else
      setA st.1 id ⟨levelPos, st.2, nodeWidth, h, nodeValueOf nodes id⟩
  (positions', st.2 + h + nodePadding)

/-- One column of `_positionNodes` (src/index.js 654-691): the column's
stack is centered on the node axis, its level-axis position computed from
the level index, and its nodes placed consecutively. -/
def placeColumn (nodes : List (String × Node))
    (scale nodeWidth nodePadding nodeAxisLength nodeAxisStart
      levelAxisStart levelAxisLength : ℚ) (levelCount : ℤ)
    (levelSpacing : ℚ) (orientation : Orientation)
    (positions : List (String × NodeGeom)) (col : ℤ × List String) :
    List (String × NodeGeom) :=
  let nodeIds := col.2
  let padding := ((max 0 ((nodeIds.length : ℤ) - 1) : ℤ) : ℚ) * nodePadding
  let heights := nodeIds.map (fun id => max 4 (nodeValueOf nodes id * scale))
  let totalHeight := heights.sum + padding
  let startPos := nodeAxisStart + (nodeAxisLength - totalHeight) / 2
  let levelPos :=
    if 1 < levelCount then levelAxisStart + (col.1 : ℚ) * levelSpacing
    else levelAxisStart + (levelAxisLength - nodeWidth) / 2
  (nodeIds.foldl
    (placeNode nodes scale nodeWidth nodePadding orientation levelPos)
    (positions, startPos)).1

/-- Embeds `_positionNodes` (src/index.js 618-694): evenly spaced levels on
the level axis, a global value-to-pixel scale, per-node thickness
`max(4, value * scale)`, and centered stacking within each column.  Field
meanings are axis-swapped in vertical orientation, as in the source. -/
def positionNodes (nodes : List (String × Node)) (levels : List (String × ℤ))
    (nodesByLevel : List (ℤ × List String)) (orientation : Orientation)
    (chartArea : ChartArea) (nodeWidth nodePadding : ℚ) :
    List (String × NodeGeom) :=
  let chartWidth := chartArea.right - chartArea.left
  let chartHeight := chartArea.bottom - chartArea.top
  let levelAxisLength :=
    if orientation = .vertical then chartHeight else chartWidth
  let nodeAxisLength :=
    if orientation = .vertical then chartWidth else chartHeight
  let maxLevel := levels.foldl (fun m p => max m p.2) 0
  let levelCount := maxLevel + 1
  let levelSpacing :=
    if 1 < levelCount then
      (levelAxisLength - nodeWidth) / ((levelCount - 1 : ℤ) : ℚ)
    else 0
  let scale := scaleOf nodes nodesByLevel nodeAxisLength nodePadding
  let nodeAxisStart :=
    if orientation = .vertical then chartArea.left else chartArea.top
  let levelAxisStart :=
    if orientation = .vertical then chartArea.top else chartArea.left
  nodesByLevel.foldl
    (placeColumn nodes scale nodeWidth nodePadding nodeAxisLength
      nodeAxisStart levelAxisStart levelAxisLength levelCount levelSpacing
      orientation)
    []

/-- Embeds the geometric fields of a flow band produced by `_computeFlows`
(color-resolution fields are rendering-only configuration and are not part
of the layout claims). -/
structure FlowBand where
  x : ℚ
  y : ℚ
  x2 : ℚ
  y2 : ℚ
  height : ℚ
  height2 : ℚ
  «from» : String
  «to» : String
  value : ℚ
deriving DecidableEq, Repr

/-- A band's thickness at one of its endpoint nodes (src/index.js 714-726):
`(flow / value) * node-axis extent` when the node's value is positive, else
0; the extent is `width` in vertical orientation, `height` otherwise. -/
def bandHeight (orientation : Orientation) (flow : ℚ) (pos : NodeGeom) : ℚ :=
  if orientation = .vertical then
    if 0 < pos.value then flow / pos.value * pos.width else 0
  else
    if 0 < pos.value then flow / pos.value * pos.height else 0

/-- The band record of one `_computeFlows` iteration (src/index.js 728-786):
it attaches at the source's far boundary and the target's near boundary on
the level axis, offset by the running accumulators plus half its own
thickness on the node axis. -/
def mkBand (orientation : Orientation) (dp : Flow) (fromPos toPos : NodeGeom)
    (outOff inOff : ℚ) : FlowBand :=
  let sourceHeight := bandHeight orientation dp.flow fromPos
  let targetHeight := bandHeight orientation dp.flow toPos
  if orientation = .vertical then
    ⟨fromPos.x + outOff + sourceHeight / 2, fromPos.y + fromPos.height,
     toPos.x + inOff + targetHeight / 2, toPos.y,
     sourceHeight, targetHeight, dp.«from», dp.«to», dp.flow⟩
  else
    ⟨fromPos.x + fromPos.width, fromPos.y + outOff + sourceHeight / 2,
     toPos.x, toPos.y + inOff + targetHeight / 2,
     sourceHeight, targetHeight, dp.«from», dp.«to», dp.flow⟩

/-- Loop of `_computeFlows` (src/index.js 706-787): one output slot per
input datum (`null` for invalid or unrouteable flows), stacking offsets
threaded through `outO`/`inO`. -/
def computeFlowsAux (positions : List (String × NodeGeom))
    (orientation : Orientation) :
    List Flow → List (String × ℚ) → List (String × ℚ) → List (Option FlowBand)
  | [], _, _ => []
  | dp :: rest, outO, inO =>
    if isValidFlow dp = false then
      none :: computeFlowsAux positions orientation rest outO inO
    else
      match lookupA positions dp.«from», lookupA positions dp.«to» with
      | some fromPos, some toPos =>
        let outOff := (lookupA outO dp.«from»).getD 0
        let inOff := (lookupA inO dp.«to»).getD 0
        some (mkBand orientation dp fromPos toPos outOff inOff) ::
          computeFlowsAux positions orientation rest
            (setA outO dp.«from»
              (outOff + bandHeight orientation dp.flow fromPos))
            (setA inO dp.«to»
              (inOff + bandHeight orientation dp.flow toPos))
      | _, _ => none :: computeFlowsAux positions orientation rest outO inO

/-- Embeds `_computeFlows` (src/index.js 696-790): offsets start at 0 for
every positioned node; output is aligned index-by-index with the input. -/
def computeFlows (data : List Flow) (positions : List (String × NodeGeom))
    (orientation : Orientation) : List (Option FlowBand) :=
  computeFlowsAux positions orientation data
    (positions.map (fun p => (p.1, 0)))
    (positions.map (fun p => (p.1, 0)))

theorem lookupA_some_mem {α β : Type} [DecidableEq α] :
    ∀ (m : List (α × β)) (k : α) (v : β), lookupA m k = some v → (k, v) ∈ m := by
  intro m
  induction m with
  | nil => intro k v h; simp [lookupA] at h
  | cons p rest ih =>
    intro k v h
    obtain ⟨pk, pv⟩ := p
    by_cases hp : pk = k
    · subst hp
      simp [lookupA] at h
      subst h
      exact List.mem_cons_self _ _
    · simp only [lookupA, hp, if_neg, not_false_iff] at h
      exact List.mem_cons_of_mem _ (ih k v h)

theorem lookupA_isSome_iff {α β : Type} [DecidableEq α] :
    ∀ (m : List (α × β)) (k : α),
    (lookupA m k).isSome = true ↔ k ∈ m.map Prod.fst := by
  intro m
  induction m with
  | nil => intro k; simp [lookupA]
  | cons p rest ih =>
    intro k
    by_cases hp : p.1 = k
    · simp [lookupA, hp]
    · simp [lookupA, hp, ih, Ne.symm hp]

/-- BFS never re-assigns a visited node: its level entry is whatever the
levels map already holds. -/
theorem bfs_lookup_of_visited (data : List Flow) :
    ∀ (visited : List String) (levels queue : List (String × ℤ))
      (id : String), id ∈ visited →
      lookupA (bfs data visited levels queue) id = lookupA levels id := by
  intro visited levels queue
  induction visited, levels, queue using bfs.induct data with
  | case1 visited levels => intro id _; simp [bfs]
  | case2 visited levels id' level rest h ih =>
    intro id hid
    rw [bfs]
    simp only [dif_pos h]
    exact ih id hid
  | case3 visited levels id' level rest h v' l' ni ih =>
    intro id hid
    rw [bfs]
    simp only [dif_neg h]
    have hne : id' ≠ id := fun hh => h (hh ▸ hid)
    rw [ih id (List.mem_cons_of_mem _ hid), lookupA_setA_ne _ _ _ _ hne]

/-- The fallback pass never changes an existing level entry. -/
theorem foldl_fallbackStep_preserves (data : List Flow) :
    ∀ (ks : List String) (L : List (String × ℤ)) (id : String) (v : ℤ),
    lookupA L id = some v →
    lookupA (ks.foldl (fallbackStep data) L) id = some v := by
  intro ks
  induction ks with
  | nil => intro L id v h; exact h
  | cons k rest ih =>
    intro L id v h
    rw [List.foldl_cons]
    refine ih _ id v ?_
    unfold fallbackStep
    split
    · exact h
    · rename_i hk
      by_cases hik : k = id
      · subst hik; simp [h] at hk
      · rw [lookupA_setA_ne _ _ _ _ hik]; exact h

/-- After the fallback pass has handled `id`, its entry is set. -/
theorem foldl_fallbackStep_isSome (data : List Flow) :
    ∀ (ks : List String) (L : List (String × ℤ)) (id : String),
    id ∈ ks →
    (lookupA (ks.foldl (fallbackStep data) L) id).isSome = true := by
  intro ks
  induction ks with
  | nil => intro L id h; simp at h
  | cons k rest ih =>
    intro L id h
    rw [List.foldl_cons]
    rcases List.mem_cons.mp h with rfl | h
    · have : (lookupA (fallbackStep data L id) id).isSome = true := by
        unfold fallbackStep
        split
        · assumption
        · simp [lookupA_setA_self]
      obtain ⟨v, hv⟩ := Option.isSome_iff_exists.mp this
      rw [foldl_fallbackStep_preserves data rest _ id v hv]
      rfl
    · exact ih _ id h

/-- Every node key has a level after `assignNodeLevels`. -/
theorem assignNodeLevels_isSome (data : List Flow)
    (nodes : List (String × Node)) (nodeConfig : List (String × Option ℤ))
    (id : String) (h : id ∈ nodes.map Prod.fst) :
    (lookupA (assignNodeLevels data nodes nodeConfig) id).isSome = true := by
  unfold assignNodeLevels
  exact foldl_fallbackStep_isSome data _ _ id h

/-- A pin step for a different id does not change that id's level entry. -/
theorem pinStep_levels_ne (data : List Flow) (nodes : List (String × Node))
    (acc : List (String × ℤ) × List String × List (String × ℤ))
    (entry : String × Option ℤ) (id : String) (h : entry.1 ≠ id) :
    lookupA (pinStep data nodes acc entry).1 id = lookupA acc.1 id := by
  unfold pinStep
  cases entry.2 with
  | none => rfl
  | some c =>
    dsimp only
    by_cases hs : (lookupA nodes entry.1).isSome = true
    · rw [if_pos hs]
      exact lookupA_setA_ne _ _ _ _ h
    · rw [if_neg hs]

/-- A pin step never unmarks a visited id. -/
theorem pinStep_visited_mono (data : List Flow) (nodes : List (String × Node))
    (acc : List (String × ℤ) × List String × List (String × ℤ))
    (entry : String × Option ℤ) (id : String) (h : id ∈ acc.2.1) :
    id ∈ (pinStep data nodes acc entry).2.1 := by
  unfold pinStep
  cases entry.2 with
  | none => exact h
  | some c =>
    dsimp only
    by_cases hs : (lookupA nodes entry.1).isSome = true
    · rw [if_pos hs]
      exact List.mem_append_left _ h
    · rw [if_neg hs]
      exact h

/-- After the pin fold, ids not among the remaining config keys keep their
levels entry, and visited membership is monotone. -/
theorem pinPhase_foldl_untouched (data : List Flow)
    (nodes : List (String × Node)) :
    ∀ (cfg : List (String × Option ℤ))
      (acc : List (String × ℤ) × List String × List (String × ℤ))
      (id : String), id ∉ cfg.map Prod.fst →
      lookupA (cfg.foldl (pinStep data nodes) acc).1 id = lookupA acc.1 id ∧
      (id ∈ acc.2.1 → id ∈ (cfg.foldl (pinStep data nodes) acc).2.1) := by
  intro cfg
  induction cfg with
  | nil => intro acc id _; exact ⟨rfl, fun h => h⟩
  | cons e rest ih =>
    intro acc id hid
    simp only [List.map_cons, List.mem_cons, not_or] at hid
    rw [List.foldl_cons]
    obtain ⟨h1, h2⟩ := ih (pinStep data nodes acc e) id hid.2
    refine ⟨h1.trans (pinStep_levels_ne data nodes acc e id
      (fun hh => hid.1 hh.symm)), fun hv =>
      h2 (pinStep_visited_mono data nodes acc e id hv)⟩

/-- A pin entry with a non-null column and an id present in `nodes` ends the
pin phase with exactly that level for its id, and the id visited —
provided the config has no duplicate keys (JS object keys are unique). -/
theorem pinPhase_pinned (data : List Flow) (nodes : List (String × Node)) :
    ∀ (cfg : List (String × Option ℤ)) (id : String) (c : ℤ),
      (cfg.map Prod.fst).Nodup →
      (id, some c) ∈ cfg →
      (lookupA nodes id).isSome →
      lookupA (pinPhase data nodes cfg).1 id = some c ∧
      id ∈ (pinPhase data nodes cfg).2.1 := by
  have aux : ∀ (cfg : List (String × Option ℤ))
      (acc : List (String × ℤ) × List String × List (String × ℤ))
      (id : String) (c : ℤ),
      (cfg.map Prod.fst).Nodup →
      (id, some c) ∈ cfg →
      (lookupA nodes id).isSome →
      lookupA (cfg.foldl (pinStep data nodes) acc).1 id = some c ∧
      id ∈ (cfg.foldl (pinStep data nodes) acc).2.1 := by
    intro cfg
    induction cfg with
    | nil => intro acc id c _ hmem; simp at hmem
    | cons e rest ih =>
      intro acc id c hnd hmem hsome
      simp only [List.map_cons, List.nodup_cons] at hnd
      rcases List.mem_cons.mp hmem with rfl | hmem
      · have hnid : id ∉ rest.map Prod.fst := hnd.1
        rw [List.foldl_cons]
        obtain ⟨h1, h2⟩ := pinPhase_foldl_untouched data nodes rest
          (pinStep data nodes acc (id, some c)) id hnid
        constructor
        · rw [h1]
          simp [pinStep, hsome, lookupA_setA_self]
        · refine h2 ?_
          simp [pinStep, hsome]
      · have hne : e.1 ≠ id := by
          intro hh
          exact hnd.1 (hh ▸ (List.mem_map.mpr ⟨(id, some c), hmem, rfl⟩))
        rw [List.foldl_cons]
        exact ih (pinStep data nodes acc e) id c hnd.2 hmem hsome
  intro cfg id c hnd hmem hsome
  exact aux cfg ([], [], []) id c hnd hmem hsome

theorem pinStep_nodupKeys (data : List Flow) (nodes : List (String × Node))
    (acc : List (String × ℤ) × List String × List (String × ℤ))
    (entry : String × Option ℤ) (h : (acc.1.map Prod.fst).Nodup) :
    (((pinStep data nodes acc entry).1).map Prod.fst).Nodup := by
  unfold pinStep
  cases entry.2 with
  | none => exact h
  | some c =>
    dsimp only
    by_cases hs : (lookupA nodes entry.1).isSome = true
    · rw [if_pos hs]
      exact setA_nodupKeys _ _ h
    · rw [if_neg hs]
      exact h

theorem bfs_nodupKeys (data : List Flow) :
    ∀ (visited : List String) (levels queue : List (String × ℤ)),
    (levels.map Prod.fst).Nodup → ((bfs data visited levels queue).map Prod.fst).Nodup := by
  intro visited levels queue
  induction visited, levels, queue using bfs.induct data with
  | case1 visited levels => intro h; simpa [bfs] using h
  | case2 visited levels id level rest h ih =>
    intro hn
    rw [bfs]
    simp only [dif_pos h]
    exact ih hn
  | case3 visited levels id level rest h v' l' ni ih =>
    intro hn
    rw [bfs]
    simp only [dif_neg h]
    exact ih (setA_nodupKeys _ _ hn)

theorem assignNodeLevels_nodupKeys (data : List Flow)
    (nodes : List (String × Node)) (nodeConfig : List (String × Option ℤ)) :
    ((assignNodeLevels data nodes nodeConfig).map Prod.fst).Nodup := by
  have hpin : ∀ (cfg : List (String × Option ℤ))
      (acc : List (String × ℤ) × List String × List (String × ℤ)),
      (acc.1.map Prod.fst).Nodup →
      (((cfg.foldl (pinStep data nodes) acc).1).map Prod.fst).Nodup := by
    intro cfg
    induction cfg with
    | nil => intro acc h; exact h
    | cons e rest ih =>
      intro acc h
      rw [List.foldl_cons]
      exact ih _ (pinStep_nodupKeys data nodes acc e h)
  have hfb : ∀ (ks : List String) (L : List (String × ℤ)),
      (L.map Prod.fst).Nodup →
      ((ks.foldl (fallbackStep data) L).map Prod.fst).Nodup := by
    intro ks
    induction ks with
    | nil => intro L h; exact h
    | cons k rest ih =>
      intro L h
      rw [List.foldl_cons]
      refine ih _ ?_
      unfold fallbackStep
      split
      · exact h
      · exact setA_nodupKeys _ _ h
  unfold assignNodeLevels levelsAfterBFS
  exact hfb _ _ (bfs_nodupKeys data _ _ _ (hpin nodeConfig ([], [], []) (by simp)))

/-- The three-node cycle `A → B → C → A` from the spec's testable
properties. -/
def cyc3 : List Flow := [⟨"A", "B", 1⟩, ⟨"B", "C", 1⟩, ⟨"C", "A", 1⟩]

/-- Edge list whose `B ↔ C` cycle is unreachable from the only root `A`,
leaving `B` and `C` to the post-BFS fallback pass. -/
def fallbackData : List Flow := [⟨"B", "C", 1⟩, ⟨"C", "B", 1⟩, ⟨"A", "X", 1⟩]

/-- The node map `buildNodes fallbackData` (first-seen order `B, C, A, X`). -/
def fallbackNodesA : List (String × Node) := buildNodes fallbackData

/-- The same node entries with `C` listed before `B`. -/
def fallbackNodesB : List (String × Node) :=
  [("C", ⟨"C", 1, 1, 1⟩), ("B", ⟨"B", 1, 1, 1⟩),
   ("A", ⟨"A", 0, 1, 1⟩), ("X", ⟨"X", 1, 0, 1⟩)]

/-- C1: a pin `{id: {column: c}}` with a non-null column whose id exists in
`nodes` forces exactly level `c` for that id in the result of
`assignNodeLevels` (neither BFS nor the fallback pass overrides it), and a
pin entry whose id is not a key of `nodes` has no effect at all on the
returned map. -/
theorem C1_pin_invariant :
    (∀ (data : List Flow) (nodes : List (String × Node))
       (cfg : List (String × Option ℤ)) (id : String) (c : ℤ),
       (cfg.map Prod.fst).Nodup →
       (id, some c) ∈ cfg →
       (lookupA nodes id).isSome = true →
       lookupA (assignNodeLevels data nodes cfg) id = some c) ∧
    (∀ (data : List Flow) (nodes : List (String × Node))
       (cfg₁ cfg₂ : List (String × Option ℤ)) (id : String) (oc : Option ℤ),
       lookupA nodes id = none →
       assignNodeLevels data nodes (cfg₁ ++ (id, oc) :: cfg₂) =
         assignNodeLevels data nodes (cfg₁ ++ cfg₂)) := by
  constructor
  · intro data nodes cfg id c hnd hmem hsome
    obtain ⟨hlev, hvis⟩ := pinPhase_pinned data nodes cfg id c hnd hmem hsome
    unfold assignNodeLevels
    have hbfs : lookupA (levelsAfterBFS data nodes cfg) id = some c := by
      unfold levelsAfterBFS
      rw [bfs_lookup_of_visited data _ _ _ id hvis]
      exact hlev
    exact foldl_fallbackStep_preserves data _ _ id c hbfs
  · intro data nodes cfg₁ cfg₂ id oc hnone
    have hstep : ∀ acc, pinStep data nodes acc (id, oc) = acc := by
      intro acc
      unfold pinStep
      cases oc with
      | none => rfl
      | some c =>
        dsimp only
        rw [if_neg]
        simp [hnone]
    have hpin : pinPhase data nodes (cfg₁ ++ (id, oc) :: cfg₂) =
        pinPhase data nodes (cfg₁ ++ cfg₂) := by
      unfold pinPhase
      rw [List.foldl_append, List.foldl_append, List.foldl_cons, hstep]
    unfold assignNodeLevels levelsAfterBFS
    rw [hpin]

theorem C1_pin_invariant_witness :
    (([("B", (some 5 : Option ℤ))].map Prod.fst).Nodup ∧
     ("B", (some 5 : Option ℤ)) ∈ [("B", (some 5 : Option ℤ))] ∧
     (lookupA (buildNodes [⟨"A", "B", 1⟩, ⟨"B", "C", 1⟩]) "B").isSome = true ∧
     lookupA (assignNodeLevels [⟨"A", "B", 1⟩, ⟨"B", "C", 1⟩]
       (buildNodes [⟨"A", "B", 1⟩, ⟨"B", "C", 1⟩]) [("B", some 5)]) "B" =
       some 5) ∧
    (lookupA (buildNodes [⟨"A", "B", 1⟩]) "Z" = none ∧
     assignNodeLevels [⟨"A", "B", 1⟩] (buildNodes [⟨"A", "B", 1⟩])
       ([] ++ ("Z", some 3) :: []) =
       assignNodeLevels [⟨"A", "B", 1⟩] (buildNodes [⟨"A", "B", 1⟩])
         ([] ++ [])) := by
  constructor
  · refine ⟨by decide, by decide, by decide, ?_⟩
    exact C1_pin_invariant.1 [⟨"A", "B", 1⟩, ⟨"B", "C", 1⟩]
      (buildNodes [⟨"A", "B", 1⟩, ⟨"B", "C", 1⟩]) [("B", some 5)] "B" 5
      (by decide) (by decide) (by decide)
  · refine ⟨by decide, ?_⟩
    exact C1_pin_invariant.2 [⟨"A", "B", 1⟩] (buildNodes [⟨"A", "B", 1⟩])
      [] [] "Z" (some 3) (by decide)

theorem fallbackStep_of_none (data : List Flow) (L : List (String × ℤ))
    (id : String) (h : lookupA L id = none) :
    fallbackStep data L id = setA L id (fallbackLevel data L id) := by
  unfold fallbackStep
  rw [if_neg]
  simp [h]

/-- C5: a node with no level after BFS is assigned, at its position in the
single first-seen-order fallback pass, `1 + max` of the levels its
predecessors hold at that moment (levels set earlier in the same pass
included), or `0` if no predecessor has a level then; the pass is not
iterated, so the result for multi-hop unresolved chains depends on the node
iteration order, as the two `fallbackNodes` orderings of the same node set
show (`B` gets level 0 in one order and 1 in the other). -/
theorem C5_fallback_pass :
    (∀ (data : List Flow) (nodes : List (String × Node))
       (cfg : List (String × Option ℤ)) (ks₁ ks₂ : List String) (id : String),
       nodes.map Prod.fst = ks₁ ++ id :: ks₂ →
       lookupA (ks₁.foldl (fallbackStep data) (levelsAfterBFS data nodes cfg))
         id = none →
       lookupA (assignNodeLevels data nodes cfg) id =
         some (fallbackLevel data
           (ks₁.foldl (fallbackStep data) (levelsAfterBFS data nodes cfg))
           id)) ∧
    lookupA (assignNodeLevels fallbackData fallbackNodesA []) "B" = some 0 ∧
    lookupA (assignNodeLevels fallbackData fallbackNodesB []) "B" = some 1 ∧
    fallbackNodesA.Perm fallbackNodesB := by
  refine ⟨?_, ?_, ?_, ?_⟩
  · intro data nodes cfg ks₁ ks₂ id hkeys hnone
    unfold assignNodeLevels
    rw [hkeys, List.foldl_append, List.foldl_cons,
      fallbackStep_of_none data _ id hnone]
    exact foldl_fallbackStep_preserves data ks₂ _ id _ (lookupA_setA_self _ _ _)
  · simp [assignNodeLevels, levelsAfterBFS, pinPhase, pinStep, rootsOf,
      syntheticRoots, bfs, fallbackData, fallbackNodesA, buildNodes,
      buildNodesStep, ensureA, finalizeNode, setA, lookupA, fallbackStep,
      fallbackLevel, String.reduceEq]
  · simp [assignNodeLevels, levelsAfterBFS, pinPhase, pinStep, rootsOf,
      syntheticRoots, bfs, fallbackData, fallbackNodesB, setA, lookupA,
      fallbackStep, fallbackLevel, String.reduceEq]
  · have hA : fallbackNodesA =
        [("B", ⟨"B", 1, 1, 1⟩), ("C", ⟨"C", 1, 1, 1⟩),
         ("A", ⟨"A", 0, 1, 1⟩), ("X", ⟨"X", 1, 0, 1⟩)] := by
      simp [fallbackNodesA, fallbackData, buildNodes, buildNodesStep,
        ensureA, finalizeNode, setA, lookupA, String.reduceEq]
    rw [hA]
    unfold fallbackNodesB
    exact List.Perm.swap _ _ _

theorem C5_fallback_pass_witness :
    (fallbackNodesA.map Prod.fst = [] ++ "B" :: ["C", "A", "X"] ∧
     lookupA (([] : List String).foldl (fallbackStep fallbackData)
       (levelsAfterBFS fallbackData fallbackNodesA [])) "B" = none) ∧
    lookupA (assignNodeLevels fallbackData fallbackNodesA []) "B" =
      some (fallbackLevel fallbackData
        (([] : List String).foldl (fallbackStep fallbackData)
          (levelsAfterBFS fallbackData fallbackNodesA [])) "B") := by
  have h1 : fallbackNodesA.map Prod.fst = [] ++ "B" :: ["C", "A", "X"] := by
    decide
  have h2 : lookupA (([] : List String).foldl (fallbackStep fallbackData)
      (levelsAfterBFS fallbackData fallbackNodesA [])) "B" = none := by
    simp [levelsAfterBFS, pinPhase, pinStep, rootsOf, syntheticRoots, bfs,
      fallbackData, fallbackNodesA, buildNodes, buildNodesStep, ensureA,
      finalizeNode, setA, lookupA, String.reduceEq]
  exact ⟨⟨h1, h2⟩,
    C5_fallback_pass.1 fallbackData fallbackNodesA [] [] ["C", "A", "X"]
      "B" h1 h2⟩

/-- C6: `assignNodeLevels` is total (the Lean embedding of the BFS loop is a
terminating function on every finite input, cycles and self-loops included)
and assigns exactly one level to every key of the node map: every key gets
a level, and the returned map binds each key at most once.  On the pure
3-cycle `A → B → C → A` with no pins it returns
`A ↦ 0, B ↦ 1, C ↦ 2` (`A`, the first-seen node, is the synthetic root). -/
theorem C6_assignNodeLevels_total :
    (∀ (data : List Flow) (nodes : List (String × Node))
       (cfg : List (String × Option ℤ)) (id : String),
       id ∈ nodes.map Prod.fst →
       (lookupA (assignNodeLevels data nodes cfg) id).isSome = true) ∧
    (∀ (data : List Flow) (nodes : List (String × Node))
       (cfg : List (String × Option ℤ)),
       ((assignNodeLevels data nodes cfg).map Prod.fst).Nodup) ∧
    assignNodeLevels cyc3 (buildNodes cyc3) [] =
      [("A", 0), ("B", 1), ("C", 2)] := by
  refine ⟨?_, ?_, ?_⟩
  · intro data nodes cfg id h
    exact assignNodeLevels_isSome data nodes cfg id h
  · intro data nodes cfg
    exact assignNodeLevels_nodupKeys data nodes cfg
  · simp [assignNodeLevels, levelsAfterBFS, pinPhase, pinStep, rootsOf,
      syntheticRoots, bfs, cyc3, buildNodes, buildNodesStep, ensureA,
      finalizeNode, setA, lookupA, fallbackStep, fallbackLevel,
      String.reduceEq]

theorem C6_assignNodeLevels_total_witness :
    "A" ∈ (buildNodes cyc3).map Prod.fst ∧
    (lookupA (assignNodeLevels cyc3 (buildNodes cyc3) []) "A").isSome =
      true := by
  refine ⟨by decide, ?_⟩
  exact C6_assignNodeLevels_total.1 cyc3 (buildNodes cyc3) [] "A" (by decide)

/-- C7: `buildNodes` has one entry per distinct id occurring as an endpoint;
each node's `incoming`/`outgoing` are the exact sums of matching edge
weights and `value = max(incoming, outgoing)`; these per-id quantities are
invariant under permutation of the edge list; the empty list gives the
empty map. -/
theorem C7_buildNodes_totals :
    buildNodes [] = [] ∧
    ∀ (data : List Flow) (id : String),
      (((lookupA (buildNodes data) id).isSome = true) ↔
        ∃ f ∈ data, f.«from» = id ∨ f.«to» = id) ∧
      (∀ n, lookupA (buildNodes data) id = some n →
        n.incoming = incomingSum data id ∧
        n.outgoing = outgoingSum data id ∧
        n.value = max n.incoming n.outgoing) ∧
      (∀ data' : List Flow, data.Perm data' →
        lookupA (buildNodes data) id = lookupA (buildNodes data') id) ∧
      ((buildNodes data).map Prod.fst).Nodup := by
  refine ⟨rfl, ?_⟩
  intro data id
  refine ⟨?_, ?_, ?_, buildNodes_nodupKeys data⟩
  · rw [buildNodes_lookup]
    split
    · simpa
    · rename_i hne
      simp only [Option.isSome_none, Bool.false_eq_true, false_iff]
      push_neg at hne ⊢
      intro f hf
      rcases hne f hf with ⟨h1, h2⟩
      exact ⟨h1, h2⟩
  · intro n hn
    rw [buildNodes_lookup] at hn
    split at hn
    · obtain rfl := Option.some_injective _ hn.symm
      exact ⟨rfl, rfl, rfl⟩
    · exact absurd hn (by simp)
  · intro data' hperm
    have hin : incomingSum data id = incomingSum data' id :=
      List.Perm.sum_eq (List.Perm.map _ (List.Perm.filter _ hperm))
    have hout : outgoingSum data id = outgoingSum data' id :=
      List.Perm.sum_eq (List.Perm.map _ (List.Perm.filter _ hperm))
    have hex : (∃ f ∈ data, f.«from» = id ∨ f.«to» = id) ↔
        (∃ f ∈ data', f.«from» = id ∨ f.«to» = id) := by
      constructor
      · rintro ⟨f, hf, hfid⟩; exact ⟨f, hperm.mem_iff.mp hf, hfid⟩
      · rintro ⟨f, hf, hfid⟩; exact ⟨f, hperm.mem_iff.mpr hf, hfid⟩
    rw [buildNodes_lookup, buildNodes_lookup, hin, hout]
    by_cases hc : ∃ f ∈ data', f.«from» = id ∨ f.«to» = id
    · rw [if_pos (hex.mpr hc), if_pos hc]
    · rw [if_neg (fun hh => hc (hex.mp hh)), if_neg hc]

theorem C7_buildNodes_totals_witness :
    (lookupA (buildNodes [⟨"A", "B", 2⟩, ⟨"A", "C", 3⟩]) "A" =
      some ⟨"A", 0, 5, 5⟩) ∧
    ((0 : ℚ) = incomingSum [⟨"A", "B", 2⟩, ⟨"A", "C", 3⟩] "A" ∧
     (5 : ℚ) = outgoingSum [⟨"A", "B", 2⟩, ⟨"A", "C", 3⟩] "A" ∧
     (5 : ℚ) = max (0 : ℚ) 5) ∧
    ([⟨"A", "B", 2⟩, ⟨"A", "C", 3⟩] : List Flow).Perm
      [⟨"A", "C", 3⟩, ⟨"A", "B", 2⟩] ∧
    lookupA (buildNodes [⟨"A", "B", 2⟩, ⟨"A", "C", 3⟩]) "A" =
      lookupA (buildNodes [⟨"A", "C", 3⟩, ⟨"A", "B", 2⟩]) "A" := by
  have hl : lookupA (buildNodes [⟨"A", "B", 2⟩, ⟨"A", "C", 3⟩]) "A" =
      some ⟨"A", 0, 5, 5⟩ := by
    simp [buildNodes, buildNodesStep, ensureA, finalizeNode, setA, lookupA,
      String.reduceEq]
    norm_num
  have hperm : ([⟨"A", "B", 2⟩, ⟨"A", "C", 3⟩] : List Flow).Perm
      [⟨"A", "C", 3⟩, ⟨"A", "B", 2⟩] := List.Perm.swap _ _ _
  refine ⟨hl, ?_, hperm, ?_⟩
  · have h := ((C7_buildNodes_totals.2 [⟨"A", "B", 2⟩, ⟨"A", "C", 3⟩]
      "A").2.1 ⟨"A", 0, 5, 5⟩ hl)
    exact ⟨h.1, h.2.1, h.2.2⟩
  · exact (C7_buildNodes_totals.2 [⟨"A", "B", 2⟩, ⟨"A", "C", 3⟩] "A").2.2.1
      [⟨"A", "C", 3⟩, ⟨"A", "B", 2⟩] hperm

theorem lookupA_none_iff {α β : Type} [DecidableEq α]
    (m : List (α × β)) (k : α) :
    lookupA m k = none ↔ k ∉ m.map Prod.fst := by
  rw [← lookupA_isSome_iff m k]
  cases lookupA m k <;> simp

theorem orderedInsert_filter_key (x : String × WithTop ℚ) (c : WithTop ℚ) :
    ∀ (l : List (String × WithTop ℚ)),
    (List.orderedInsert (fun a b => a.2 ≤ b.2) x l).filter
        (fun e => decide (e.2 = c)) =
      if x.2 = c then
        x :: l.filter (fun e => decide (e.2 = c))
      else l.filter (fun e => decide (e.2 = c)) := by
  intro l
  induction l with
  | nil => by_cases hx : x.2 = c <;> simp [List.orderedInsert, hx]
  | cons b l ih =>
    by_cases hr : x.2 ≤ b.2
    · rw [List.orderedInsert, if_pos hr]
      by_cases hx : x.2 = c <;> by_cases hb : b.2 = c <;>
        simp [List.filter_cons, hx, hb]
    · have hlt : b.2 < x.2 := lt_of_not_le hr
      rw [List.orderedInsert, if_neg hr]
      by_cases hx : x.2 = c
      · have hbc : ¬ b.2 = c := by rw [← hx]; exact ne_of_lt hlt
        simp only [List.filter_cons, decide_eq_true_eq, hbc, if_false, ih,
          if_pos hx]
      · simp only [List.filter_cons, decide_eq_true_eq]
        by_cases hbc : b.2 = c <;> simp [hbc, ih, hx]

/-- C4: the column re-sort of `reorderNodes` is stable: for every barycenter
value `c` (the all-`⊤` case of nodes with no adjacent-column neighbors
included), the subsequence of entries with barycenter `c` is unchanged by
the sort — so two nodes of the same column with equal barycenters keep
their relative order, in every column of both passes, exactly as the JS
stable `Array.prototype.sort` does under the comparator
`(a, b) => a.barycenter - b.barycenter` (whose `Infinity - Infinity = NaN`
result ties). -/
theorem C4_sortByBarycenter_stable :
    ∀ (entries : List (String × WithTop ℚ)) (c : WithTop ℚ),
    (sortByBarycenter entries).filter (fun e => decide (e.2 = c)) =
      entries.filter (fun e => decide (e.2 = c)) := by
  intro entries c
  unfold sortByBarycenter
  induction entries with
  | nil => rfl
  | cons x l ih =>
    rw [List.insertionSort, orderedInsert_filter_key x c, ih,
      List.filter_cons]
    by_cases hx : x.2 = c <;> simp [hx]

theorem reorderColumn_keys (data : List Flow)
    (nbl : List (ℤ × List String)) (pass : ℕ) (level : ℤ) :
    (reorderColumn data nbl pass level).map Prod.fst = nbl.map Prod.fst := by
  unfold reorderColumn
  cases h : lookupA nbl level with
  | none => rfl
  | some nodeIds =>
    dsimp only
    by_cases hlen : nodeIds.length ≤ 1
    · rw [if_pos hlen]
    · rw [if_neg hlen]
      cases hadj : lookupA nbl (if pass = 0 then level - 1 else level + 1) with
      | none => rfl
      | some adjNodes =>
        dsimp only
        apply setA_keys_of_mem
        rw [← lookupA_isSome_iff]
        simp [h]

theorem reorderColumn_lookup_perm (data : List Flow)
    (nbl : List (ℤ × List String)) (pass : ℕ) (level k : ℤ)
    (xs : List String) (h : lookupA nbl k = some xs) :
    ∃ ys, lookupA (reorderColumn data nbl pass level) k = some ys ∧
      ys.Perm xs := by
  unfold reorderColumn
  cases hl : lookupA nbl level with
  | none => exact ⟨xs, h, List.Perm.refl xs⟩
  | some nodeIds =>
    dsimp only
    by_cases hlen : nodeIds.length ≤ 1
    · rw [if_pos hlen]; exact ⟨xs, h, List.Perm.refl xs⟩
    · rw [if_neg hlen]
      cases hadj : lookupA nbl (if pass = 0 then level - 1 else level + 1) with
      | none => exact ⟨xs, h, List.Perm.refl xs⟩
      | some adjNodes =>
        dsimp only
        by_cases hk : level = k
        · subst hk
          have hxs : xs = nodeIds := by
            rw [h] at hl
            exact Option.some_injective _ hl
          subst hxs
          refine ⟨_, lookupA_setA_self _ _ _, ?_⟩
          have hperm : (sortByBarycenter (xs.map (fun id =>
              (id, barycenter (posIndexOf adjNodes)
                (if pass = 0 then incomingAdj data id
                 else outgoingAdj data id))))).Perm
              (xs.map (fun id =>
              (id, barycenter (posIndexOf adjNodes)
                (if pass = 0 then incomingAdj data id
                 else outgoingAdj data id)))) := by
            unfold sortByBarycenter
            exact List.perm_insertionSort _ _
          have h2 := List.Perm.map Prod.fst hperm
          rw [List.map_map] at h2
          simpa [Function.comp_def] using h2
        · rw [lookupA_setA_ne _ _ _ _ hk]
          exact ⟨xs, h, List.Perm.refl xs⟩

theorem foldl_reorderColumn_perm (data : List Flow) (pass : ℕ) :
    ∀ (ls : List ℤ) (nbl : List (ℤ × List String)) (k : ℤ) (xs : List String),
    lookupA nbl k = some xs →
    ∃ ys, lookupA (ls.foldl
        (fun nbl level => reorderColumn data nbl pass level) nbl) k =
        some ys ∧ ys.Perm xs := by
  intro ls
  induction ls with
  | nil => intro nbl k xs h; exact ⟨xs, h, List.Perm.refl xs⟩
  | cons l rest ih =>
    intro nbl k xs h
    rw [List.foldl_cons]
    obtain ⟨ys, hy, hyp⟩ := reorderColumn_lookup_perm data nbl pass l k xs h
    obtain ⟨zs, hz, hzp⟩ := ih (reorderColumn data nbl pass l) k ys hy
    exact ⟨zs, hz, hzp.trans hyp⟩

theorem foldl_reorderColumn_keys (data : List Flow) (pass : ℕ) :
    ∀ (ls : List ℤ) (nbl : List (ℤ × List String)),
    (ls.foldl (fun nbl level => reorderColumn data nbl pass level) nbl).map
        Prod.fst = nbl.map Prod.fst := by
  intro ls
  induction ls with
  | nil => intro nbl; rfl
  | cons l rest ih =>
    intro nbl
    rw [List.foldl_cons, ih, reorderColumn_keys]

theorem reorderNodes_keys (nbl : List (ℤ × List String)) (data : List Flow) :
    (reorderNodes nbl data).map Prod.fst = nbl.map Prod.fst := by
  unfold reorderNodes
  rw [foldl_reorderColumn_keys, foldl_reorderColumn_keys]

theorem reorderNodes_lookup_perm (nbl : List (ℤ × List String))
    (data : List Flow) (k : ℤ) (xs : List String)
    (h : lookupA nbl k = some xs) :
    ∃ ys, lookupA (reorderNodes nbl data) k = some ys ∧ ys.Perm xs := by
  unfold reorderNodes
  obtain ⟨ys, hy, hyp⟩ := foldl_reorderColumn_perm data 0 _ nbl k xs h
  obtain ⟨zs, hz, hzp⟩ := foldl_reorderColumn_perm data 1 _ _ k ys hy
  exact ⟨zs, hz, hzp.trans hyp⟩

/-- C8: `reorderNodes` after `groupByLevel` only permutes the ids within
each column — keys are unchanged, each column's id multiset is preserved,
absent columns stay absent, and a column of at most one node is returned
exactly as it was. -/
theorem C8_reorder_preserves_columns :
    ∀ (levels : List (String × ℤ)) (data : List Flow) (level : ℤ),
    ((reorderNodes (groupByLevel levels) data).map Prod.fst =
      (groupByLevel levels).map Prod.fst) ∧
    (∀ xs, lookupA (groupByLevel levels) level = some xs →
      ∃ ys, lookupA (reorderNodes (groupByLevel levels) data) level =
        some ys ∧ ys.Perm xs) ∧
    (lookupA (groupByLevel levels) level = none →
      lookupA (reorderNodes (groupByLevel levels) data) level = none) ∧
    (∀ xs, lookupA (groupByLevel levels) level = some xs → xs.length ≤ 1 →
      lookupA (reorderNodes (groupByLevel levels) data) level = some xs) := by
  intro levels data level
  refine ⟨reorderNodes_keys _ data, ?_, ?_, ?_⟩
  · intro xs h
    exact reorderNodes_lookup_perm _ data level xs h
  · intro h
    rw [lookupA_none_iff] at h ⊢
    rw [reorderNodes_keys]
    exact h
  · intro xs h hlen
    obtain ⟨ys, hy, hyp⟩ := reorderNodes_lookup_perm _ data level xs h
    match xs, hlen with
    | [], _ =>
      rw [hy, List.Perm.eq_nil hyp]
    | [a], _ =>
      rw [hy, List.perm_singleton.mp hyp]

theorem C8_reorder_preserves_columns_witness :
    (lookupA (groupByLevel [("A", 0), ("B", 1), ("C", 1)]) 1 =
      some ["B", "C"] ∧
     (∃ ys, lookupA (reorderNodes
         (groupByLevel [("A", 0), ("B", 1), ("C", 1)])
         [⟨"A", "B", 1⟩, ⟨"A", "C", 1⟩]) 1 = some ys ∧
       ys.Perm ["B", "C"])) ∧
    (lookupA (groupByLevel [("A", 0), ("B", 1), ("C", 1)]) 0 = some ["A"] ∧
     ["A"].length ≤ 1 ∧
     lookupA (reorderNodes (groupByLevel [("A", 0), ("B", 1), ("C", 1)])
       [⟨"A", "B", 1⟩, ⟨"A", "C", 1⟩]) 0 = some ["A"]) ∧
    (lookupA (groupByLevel [("A", 0), ("B", 1), ("C", 1)]) 7 = none ∧
     lookupA (reorderNodes (groupByLevel [("A", 0), ("B", 1), ("C", 1)])
       [⟨"A", "B", 1⟩, ⟨"A", "C", 1⟩]) 7 = none) := by
  have h1 : lookupA (groupByLevel [("A", 0), ("B", 1), ("C", 1)]) 1 =
      some ["B", "C"] := by decide
  have h0 : lookupA (groupByLevel [("A", 0), ("B", 1), ("C", 1)]) 0 =
      some ["A"] := by decide
  have h7 : lookupA (groupByLevel [("A", 0), ("B", 1), ("C", 1)]) 7 =
      none := by decide
  refine ⟨⟨h1, ?_⟩, ⟨h0, by decide, ?_⟩, ⟨h7, ?_⟩⟩
  · exact (C8_reorder_preserves_columns [("A", 0), ("B", 1), ("C", 1)]
      [⟨"A", "B", 1⟩, ⟨"A", "C", 1⟩] 1).2.1 ["B", "C"] h1
  · exact (C8_reorder_preserves_columns [("A", 0), ("B", 1), ("C", 1)]
      [⟨"A", "B", 1⟩, ⟨"A", "C", 1⟩] 0).2.2.2 ["A"] h0 (by decide)
  · exact (C8_reorder_preserves_columns [("A", 0), ("B", 1), ("C", 1)]
      [⟨"A", "B", 1⟩, ⟨"A", "C", 1⟩] 7).2.2.1 h7

/-- The containment test as claim C3 words it (min/max-normalized primary
interval in BOTH orientations, thickness interpolated between the ends):
a spec-side definition to compare with `FlowElement.inRange`. -/
def claimInRange (e : FlowElement) (px py : ℚ) : Bool :=
  let h1 := e.height.getD 0
  let h2 := e.height2.getD h1
  match e.orientation with
  | .vertical =>
    if e.y2 = e.y then false
    else if py < min e.y e.y2 ∨ py > max e.y e.y2 then false
    else
      let t := (py - e.y) / (e.y2 - e.y)
      let centerX := e.x + t * (e.x2 - e.x)
      let h := h1 + t * (h2 - h1)
      decide (px ≥ centerX - h / 2 ∧ px ≤ centerX + h / 2)
  | .horizontal =>
    if e.x2 = e.x then false
    else if px < min e.x e.x2 ∨ px > max e.x e.x2 then false
    else
      let t := (px - e.x) / (e.x2 - e.x)
      let centerY := e.y + t * (e.y2 - e.y)
      let h := h1 + t * (h2 - h1)
      decide (py ≥ centerY - h / 2 ∧ py ≤ centerY + h / 2)

/-- C3 counterexample: a horizontal band with reversed endpoints
(`x = 10 > x2 = 0`, constant thickness 4) contains the interior point
`(5, 0)` according to the claim's reading, but `inRange` rejects it: the
horizontal branch tests `mouseX < x || mouseX > x2` literally, without
min/max normalization, so any horizontal band with `x2 < x` contains no
points. -/
theorem C3_inRange_counterexample :
    claimInRange ⟨10, 0, 0, 0, some 4, some 4, .horizontal⟩ 5 0 = true ∧
    FlowElement.inRange ⟨10, 0, 0, 0, some 4, some 4, .horizontal⟩ 5 0 =
      false := by
  constructor
  · norm_num [claimInRange]
  · norm_num [FlowElement.inRange]

/-- C3 (amended): `inRange` is false when the endpoints coincide on the
primary axis; otherwise it is true exactly when the primary coordinate lies
in the primary interval and the secondary coordinate is within half the
linearly interpolated thickness `h1 + t*(h2-h1)` of the interpolated center
line — where the primary interval is `[min, max]` of the endpoints in the
vertical orientation (either endpoint ordering works) but the literal
`[x, x2]` in the horizontal orientation, so a horizontal band with
`x2 < x` contains no points at all. -/
theorem C3_inRange_characterization :
    ∀ (e : FlowElement) (px py : ℚ),
    (e.inRange px py = true ↔
      (let h1 := e.height.getD 0
       let h2 := e.height2.getD h1
       match e.orientation with
       | .vertical =>
         e.y2 ≠ e.y ∧ min e.y e.y2 ≤ py ∧ py ≤ max e.y e.y2 ∧
         |px - (e.x + (py - e.y) / (e.y2 - e.y) * (e.x2 - e.x))| ≤
           (h1 + (py - e.y) / (e.y2 - e.y) * (h2 - h1)) / 2
       | .horizontal =>
         e.x2 ≠ e.x ∧ e.x ≤ px ∧ px ≤ e.x2 ∧
         |py - (e.y + (px - e.x) / (e.x2 - e.x) * (e.y2 - e.y))| ≤
           (h1 + (px - e.x) / (e.x2 - e.x) * (h2 - h1)) / 2)) := by
  intro e px py
  unfold FlowElement.inRange
  cases horient : e.orientation with
  | vertical =>
    dsimp only
    by_cases hy : e.y2 = e.y
    · simp [hy]
    · rw [if_neg hy]
      by_cases hrange : py < min e.y e.y2 ∨ py > max e.y e.y2
      · rw [if_pos hrange]
        simp only [Bool.false_eq_true, false_iff]
        intro hcon
        rcases hrange with h | h
        · exact absurd hcon.2.1 (not_le.mpr h)
        · exact absurd hcon.2.2.1 (not_le.mpr h)
      · rw [if_neg hrange]
        push_neg at hrange
        simp only [decide_eq_true_eq, ge_iff_le, abs_le]
        constructor
        · rintro ⟨hl, hr⟩
          refine ⟨hy, hrange.1, hrange.2, ?_, ?_⟩ <;> linarith
        · rintro ⟨_, _, _, hl, hr⟩
          constructor <;> linarith
  | horizontal =>
    dsimp only
    by_cases hx : e.x2 = e.x
    · simp [hx]
    · rw [if_neg hx]
      by_cases hrange : px < e.x ∨ px > e.x2
      · rw [if_pos hrange]
        simp only [Bool.false_eq_true, false_iff]
        intro hcon
        rcases hrange with h | h
        · exact absurd hcon.2.1 (not_le.mpr h)
        · exact absurd hcon.2.2.1 (not_le.mpr h)
      · rw [if_neg hrange]
        push_neg at hrange
        simp only [decide_eq_true_eq, ge_iff_le, abs_le]
        constructor
        · rintro ⟨hl, hr⟩
          refine ⟨hx, hrange.1, hrange.2, ?_, ?_⟩ <;> linarith
        · rintro ⟨_, _, _, hl, hr⟩
          constructor <;> linarith

/-- Node-axis start coordinate of a node's geometry (`y` horizontal, `x`
vertical). -/
def posStart (orientation : Orientation) (pos : NodeGeom) : ℚ :=
  if orientation = .vertical then pos.x else pos.y

/-- Node-axis thickness of a node's geometry (`height` horizontal, `width`
vertical). -/
def posExtent (orientation : Orientation) (pos : NodeGeom) : ℚ :=
  if orientation = .vertical then pos.width else pos.height

/-- The scale constraint a column contributes: `available / totalValue`
when its total value and available space are both positive, else nothing. -/
def colCandidate (nodes : List (String × Node))
    (nodeAxisLength nodePadding : ℚ) (col : ℤ × List String) : Option ℚ :=
  let totalValue := (col.2.map (nodeValueOf nodes)).sum
  let padding := ((max 0 ((col.2.length : ℤ) - 1) : ℤ) : ℚ) * nodePadding
  let available := nodeAxisLength - padding
  if 0 < totalValue ∧ 0 < available then some (available / totalValue)
  else none

/-- All column scale constraints, in column order. -/
def scaleCandidates (nodes : List (String × Node))
    (nodesByLevel : List (ℤ × List String))
    (nodeAxisLength nodePadding : ℚ) : List ℚ :=
  nodesByLevel.filterMap (colCandidate nodes nodeAxisLength nodePadding)

/-- Running minimum of a nonempty collection. -/
def minQ (c : ℚ) (cs : List ℚ) : ℚ := cs.foldl min c

theorem minQ_mem : ∀ (cs : List ℚ) (c : ℚ), minQ c cs ∈ c :: cs := by
  intro cs
  induction cs with
  | nil => intro c; simp [minQ]
  | cons x rest ih =>
    intro c
    have hq : minQ c (x :: rest) = minQ (min c x) rest := by
      simp [minQ, List.foldl_cons]
    rw [hq]
    rcases List.mem_cons.mp (ih (min c x)) with h | h
    · rcases min_cases c x with ⟨he, _⟩ | ⟨he, _⟩
      · rw [h, he]; exact List.mem_cons_self _ _
      · rw [h, he]
        exact List.mem_cons_of_mem _ (List.mem_cons_self _ _)
    · exact List.mem_cons_of_mem _ (List.mem_cons_of_mem _ h)

theorem minQ_le : ∀ (cs : List ℚ) (c : ℚ),
    minQ c cs ≤ c ∧ ∀ x ∈ cs, minQ c cs ≤ x := by
  intro cs
  induction cs with
  | nil => intro c; simp [minQ]
  | cons x rest ih =>
    intro c
    obtain ⟨h1, h2⟩ := ih (min c x)
    have hcs : minQ c (x :: rest) = minQ (min c x) rest := by
      simp [minQ, List.foldl_cons]
    refine ⟨?_, ?_⟩
    · rw [hcs]; exact h1.trans (min_le_left _ _)
    · intro z hz
      rcases List.mem_cons.mp hz with rfl | hz
      · rw [hcs]; exact h1.trans (min_le_right _ _)
      · rw [hcs]; exact h2 z hz

theorem scaleStep_eq (nodes : List (String × Node))
    (nodeAxisLength nodePadding : ℚ) (s : Option ℚ)
    (col : ℤ × List String) :
    scaleStep nodes nodeAxisLength nodePadding s col =
      match colCandidate nodes nodeAxisLength nodePadding col with
      | none => s
      | some c => some (match s with | none => c | some m => min m c) := by
  unfold scaleStep colCandidate
  by_cases hcond : 0 < (col.2.map (nodeValueOf nodes)).sum ∧
      0 < nodeAxisLength -
        ((max 0 ((col.2.length : ℤ) - 1) : ℤ) : ℚ) * nodePadding
  · simp only [if_pos hcond]
  · simp only [if_neg hcond]

theorem scaleOf_foldl_spec (nodes : List (String × Node))
    (nodeAxisLength nodePadding : ℚ) :
    ∀ (cols : List (ℤ × List String)) (s₀ : Option ℚ),
    cols.foldl (scaleStep nodes nodeAxisLength nodePadding) s₀ =
      match s₀ with
      | none =>
        match scaleCandidates nodes cols nodeAxisLength nodePadding with
        | [] => none
        | c :: cs => some (minQ c cs)
      | some m =>
        some (minQ m (scaleCandidates nodes cols nodeAxisLength nodePadding)) := by
  intro cols
  induction cols with
  | nil =>
    intro s₀
    cases s₀ <;> simp [scaleCandidates, minQ]
  | cons col rest ih =>
    intro s₀
    rw [List.foldl_cons, scaleStep_eq, ih]
    cases hc : colCandidate nodes nodeAxisLength nodePadding col with
    | none =>
      cases s₀ <;>
        simp [scaleCandidates, List.filterMap_cons, hc]
    | some c =>
      cases s₀ with
      | none =>
        simp [scaleCandidates, List.filterMap_cons, hc]
      | some m =>
        simp [scaleCandidates, List.filterMap_cons, hc, minQ,
          List.foldl_cons]

theorem scaleCandidates_pos (nodes : List (String × Node))
    (nodesByLevel : List (ℤ × List String))
    (nodeAxisLength nodePadding : ℚ) (c : ℚ)
    (h : c ∈ scaleCandidates nodes nodesByLevel nodeAxisLength nodePadding) :
    0 < c := by
  obtain ⟨col, _, hc⟩ := List.mem_filterMap.mp h
  unfold colCandidate at hc
  by_cases hcond : 0 < (col.2.map (nodeValueOf nodes)).sum ∧
      0 < nodeAxisLength -
        ((max 0 ((col.2.length : ℤ) - 1) : ℤ) : ℚ) * nodePadding
  · rw [if_pos hcond] at hc
    obtain rfl := Option.some_injective _ hc
    exact div_pos hcond.2 hcond.1
  · rw [if_neg hcond] at hc
    exact absurd hc (by simp)

/-- `scaleOf` is the minimum candidate, or 1 when there are none. -/
theorem scaleOf_spec (nodes : List (String × Node))
    (nodesByLevel : List (ℤ × List String))
    (nodeAxisLength nodePadding : ℚ) :
    (scaleCandidates nodes nodesByLevel nodeAxisLength nodePadding = [] →
      scaleOf nodes nodesByLevel nodeAxisLength nodePadding = 1) ∧
    (∀ c ∈ scaleCandidates nodes nodesByLevel nodeAxisLength nodePadding,
      scaleOf nodes nodesByLevel nodeAxisLength nodePadding ≤ c) ∧
    (scaleCandidates nodes nodesByLevel nodeAxisLength nodePadding ≠ [] →
      scaleOf nodes nodesByLevel nodeAxisLength nodePadding ∈
        scaleCandidates nodes nodesByLevel nodeAxisLength nodePadding) := by
  unfold scaleOf
  rw [scaleOf_foldl_spec]
  cases hcands :
      scaleCandidates nodes nodesByLevel nodeAxisLength nodePadding with
  | nil =>
    refine ⟨fun _ => rfl, ?_, ?_⟩
    · intro c hc; simp at hc
    · intro hne; exact absurd rfl hne
  | cons c cs =>
    dsimp only
    have hmem : minQ c cs ∈ c :: cs := minQ_mem cs c
    have hpos : 0 < minQ c cs :=
      scaleCandidates_pos nodes nodesByLevel nodeAxisLength nodePadding _
        (hcands ▸ hmem)
    have hle := minQ_le cs c
    refine ⟨fun hh => absurd hh (by simp), ?_, ?_⟩
    · intro z hz
      rw [if_neg (not_le.mpr hpos)]
      rcases List.mem_cons.mp hz with rfl | hz
      · exact hle.1
      · exact hle.2 z hz
    · intro _
      rw [if_neg (not_le.mpr hpos)]
      exact hmem

/-- The geometry record written by `placeNode`, packaged for both
orientations. -/
def placeNodeGeom (orientation : Orientation)
    (stackPos levelPos h nodeWidth v : ℚ) : NodeGeom :=
  if orientation = .vertical then ⟨stackPos, levelPos, h, nodeWidth, v⟩
  else ⟨levelPos, stackPos, nodeWidth, h, v⟩

theorem placeNode_lookup (nodes : List (String × Node))
    (scale nodeWidth nodePadding : ℚ) (orientation : Orientation)
    (levelPos : ℚ) (st : List (String × NodeGeom) × ℚ) (i id : String) :
    lookupA (placeNode nodes scale nodeWidth nodePadding orientation
      levelPos st i).1 id =
      if i = id then
        some (placeNodeGeom orientation st.2 levelPos
          (max 4 (nodeValueOf nodes i * scale)) nodeWidth
          (nodeValueOf nodes i))
      else lookupA st.1 id := by
  unfold placeNode placeNodeGeom
  cases orientation <;> simp [lookupA_setA]

theorem placeNode_snd (nodes : List (String × Node))
    (scale nodeWidth nodePadding : ℚ) (orientation : Orientation)
    (levelPos : ℚ) (st : List (String × NodeGeom) × ℚ) (i : String) :
    (placeNode nodes scale nodeWidth nodePadding orientation
      levelPos st i).2 =
      st.2 + max 4 (nodeValueOf nodes i * scale) + nodePadding := by
  unfold placeNode
  cases orientation <;> simp

theorem placeNodeGeom_spec (orientation : Orientation)
    (stackPos levelPos h nodeWidth v : ℚ) :
    posExtent orientation
        (placeNodeGeom orientation stackPos levelPos h nodeWidth v) = h ∧
    posStart orientation
        (placeNodeGeom orientation stackPos levelPos h nodeWidth v) =
      stackPos ∧
    (placeNodeGeom orientation stackPos levelPos h nodeWidth v).value = v := by
  cases orientation <;> simp [posExtent, posStart, placeNodeGeom]

/-- Every geometry record `positionNodes` returns carries the node's value
and the thickness `max 4 (value * scale)` on the node axis. -/
theorem positionNodes_lookup_spec (nodes : List (String × Node))
    (levels : List (String × ℤ)) (nodesByLevel : List (ℤ × List String))
    (orientation : Orientation) (chartArea : ChartArea)
    (nodeWidth nodePadding : ℚ) (id : String) (pos : NodeGeom)
    (h : lookupA (positionNodes nodes levels nodesByLevel orientation
      chartArea nodeWidth nodePadding) id = some pos) :
    posExtent orientation pos =
      max 4 (nodeValueOf nodes id *
        scaleOf nodes nodesByLevel
          (if orientation = .vertical then chartArea.right - chartArea.left
           else chartArea.bottom - chartArea.top) nodePadding) ∧
    pos.value = nodeValueOf nodes id := by
  set scale := scaleOf nodes nodesByLevel
    (if orientation = .vertical then chartArea.right - chartArea.left
     else chartArea.bottom - chartArea.top) nodePadding with hscale
  have hnode : ∀ (levelPos : ℚ) (ids : List String)
      (st : List (String × NodeGeom) × ℚ),
      (∀ id' pos', lookupA st.1 id' = some pos' →
        posExtent orientation pos' =
          max 4 (nodeValueOf nodes id' * scale) ∧
        pos'.value = nodeValueOf nodes id') →
      ∀ id' pos', lookupA (ids.foldl
        (placeNode nodes scale nodeWidth nodePadding orientation levelPos)
        st).1 id' = some pos' →
      posExtent orientation pos' = max 4 (nodeValueOf nodes id' * scale) ∧
      pos'.value = nodeValueOf nodes id' := by
    intro levelPos ids
    induction ids with
    | nil => intro st hst id' pos' h'; exact hst id' pos' h'
    | cons i rest ih =>
      intro st hst id' pos' h'
      rw [List.foldl_cons] at h'
      refine ih _ ?_ id' pos' h'
      intro id'' pos'' h''
      rw [placeNode_lookup] at h''
      by_cases hii : i = id''
      · rw [if_pos hii] at h''
        obtain rfl := Option.some_injective _ h''
        obtain ⟨he, _, hv⟩ := placeNodeGeom_spec orientation st.2 levelPos
          (max 4 (nodeValueOf nodes i * scale)) nodeWidth
          (nodeValueOf nodes i)
        subst hii
        exact ⟨he, hv⟩
      · rw [if_neg hii] at h''
        exact hst id'' pos'' h''
  have hcol : ∀ (cols : List (ℤ × List String))
      (acc : List (String × NodeGeom)),
      (∀ id' pos', lookupA acc id' = some pos' →
        posExtent orientation pos' =
          max 4 (nodeValueOf nodes id' * scale) ∧
        pos'.value = nodeValueOf nodes id') →
      ∀ id' pos', lookupA (cols.foldl
        (placeColumn nodes scale nodeWidth nodePadding
          (if orientation = .vertical then chartArea.right - chartArea.left
           else chartArea.bottom - chartArea.top)
          (if orientation = .vertical then chartArea.left else chartArea.top)
          (if orientation = .vertical then chartArea.top else chartArea.left)
          (if orientation = .vertical then chartArea.bottom - chartArea.top
           else chartArea.right - chartArea.left)
          (levels.foldl (fun m p => max m p.2) 0 + 1)
          (if 1 < levels.foldl (fun m p => max m p.2) 0 + 1 then
            ((if orientation = .vertical then
                chartArea.bottom - chartArea.top
              else chartArea.right - chartArea.left) - nodeWidth) /
              (((levels.foldl (fun m p => max m p.2) 0 + 1 - 1 : ℤ)) : ℚ)
           else 0)
          orientation) acc) id' = some pos' →
      posExtent orientation pos' = max 4 (nodeValueOf nodes id' * scale) ∧
      pos'.value = nodeValueOf nodes id' := by
    intro cols
    induction cols with
    | nil => intro acc hacc id' pos' h'; exact hacc id' pos' h'
    | cons col rest ih =>
      intro acc hacc id' pos' h'
      rw [List.foldl_cons] at h'
      refine ih _ ?_ id' pos' h'
      intro id'' pos'' h''
      unfold placeColumn at h''
      exact hnode _ _ _ hacc id'' pos'' h''
  revert h
  unfold positionNodes
  intro h
  exact hcol nodesByLevel [] (by intro a b hh; simp [lookupA] at hh) id pos h

/-- C2: the sizing scale of `_positionNodes` is the minimum of
`available / totalValue` over the columns with positive total value and
positive available space (node-axis length minus `(count-1)*padding`),
defaulting to 1 when no column yields a constraint; every positioned
node's node-axis thickness is `max 4 (value * scale)`; hence nodes of
equal value get equal thickness in any two columns. -/
theorem C2_positionNodes_scale :
    ∀ (nodes : List (String × Node)) (nbl : List (ℤ × List String))
      (nodeAxisLength nodePadding : ℚ),
    (scaleCandidates nodes nbl nodeAxisLength nodePadding = [] →
      scaleOf nodes nbl nodeAxisLength nodePadding = 1) ∧
    (∀ c ∈ scaleCandidates nodes nbl nodeAxisLength nodePadding,
      scaleOf nodes nbl nodeAxisLength nodePadding ≤ c) ∧
    (scaleCandidates nodes nbl nodeAxisLength nodePadding ≠ [] →
      scaleOf nodes nbl nodeAxisLength nodePadding ∈
        scaleCandidates nodes nbl nodeAxisLength nodePadding) ∧
    (∀ (levels : List (String × ℤ)) (orientation : Orientation)
       (area : ChartArea) (nodeWidth : ℚ) (id : String) (pos : NodeGeom),
      lookupA (positionNodes nodes levels nbl orientation area nodeWidth
        nodePadding) id = some pos →
      posExtent orientation pos =
        max 4 (nodeValueOf nodes id * scaleOf nodes nbl
          (if orientation = .vertical then area.right - area.left
           else area.bottom - area.top) nodePadding)) ∧
    (∀ (levels : List (String × ℤ)) (orientation : Orientation)
       (area : ChartArea) (nodeWidth : ℚ) (id₁ id₂ : String)
       (pos₁ pos₂ : NodeGeom),
      lookupA (positionNodes nodes levels nbl orientation area nodeWidth
        nodePadding) id₁ = some pos₁ →
      lookupA (positionNodes nodes levels nbl orientation area nodeWidth
        nodePadding) id₂ = some pos₂ →
      nodeValueOf nodes id₁ = nodeValueOf nodes id₂ →
      posExtent orientation pos₁ = posExtent orientation pos₂) := by
  intro nodes nbl nodeAxisLength nodePadding
  obtain ⟨h1, h2, h3⟩ := scaleOf_spec nodes nbl nodeAxisLength nodePadding
  refine ⟨h1, h2, h3, ?_, ?_⟩
  · intro levels orientation area nodeWidth id pos h
    exact (positionNodes_lookup_spec nodes levels nbl orientation area
      nodeWidth nodePadding id pos h).1
  · intro levels orientation area nodeWidth id₁ id₂ pos₁ pos₂ hp₁ hp₂ hv
    rw [(positionNodes_lookup_spec nodes levels nbl orientation area
      nodeWidth nodePadding id₁ pos₁ hp₁).1,
      (positionNodes_lookup_spec nodes levels nbl orientation area
      nodeWidth nodePadding id₂ pos₂ hp₂).1, hv]

theorem C2_positionNodes_scale_witness :
    ((25 : ℚ) ∈ scaleCandidates [("A", ⟨"A", 0, 2, 2⟩), ("B", ⟨"B", 2, 0, 2⟩)]
       [(0, ["A"]), (1, ["B"])] 50 10 ∧
     scaleOf [("A", ⟨"A", 0, 2, 2⟩), ("B", ⟨"B", 2, 0, 2⟩)]
       [(0, ["A"]), (1, ["B"])] 50 10 ≤ 25) ∧
    (lookupA (positionNodes [("A", ⟨"A", 0, 2, 2⟩), ("B", ⟨"B", 2, 0, 2⟩)]
        [("A", 0), ("B", 1)] [(0, ["A"]), (1, ["B"])] .horizontal
        ⟨0, 100, 0, 50⟩ 20 10) "A" = some ⟨0, 0, 20, 50, 2⟩ ∧
     posExtent .horizontal (⟨0, 0, 20, 50, 2⟩ : NodeGeom) =
       max 4 (nodeValueOf [("A", ⟨"A", 0, 2, 2⟩), ("B", ⟨"B", 2, 0, 2⟩)] "A" *
         scaleOf [("A", ⟨"A", 0, 2, 2⟩), ("B", ⟨"B", 2, 0, 2⟩)]
           [(0, ["A"]), (1, ["B"])]
           (if (Orientation.horizontal = Orientation.vertical) then
             (100 : ℚ) - 0 else (50 : ℚ) - 0) 10)) := by
  have hl : lookupA (positionNodes [("A", ⟨"A", 0, 2, 2⟩), ("B", ⟨"B", 2, 0, 2⟩)]
      [("A", 0), ("B", 1)] [(0, ["A"]), (1, ["B"])] .horizontal
      ⟨0, 100, 0, 50⟩ 20 10) "A" = some ⟨0, 0, 20, 50, 2⟩ := by
    simp [positionNodes, placeColumn, placeNode, scaleOf, scaleStep,
      nodeValueOf, lookupA, setA, String.reduceEq]
    norm_num
  refine ⟨⟨?_, ?_⟩, hl, ?_⟩
  · simp [scaleCandidates, colCandidate, nodeValueOf, lookupA,
      List.filterMap_cons, String.reduceEq]
    norm_num
  · refine (C2_positionNodes_scale [("A", ⟨"A", 0, 2, 2⟩),
      ("B", ⟨"B", 2, 0, 2⟩)] [(0, ["A"]), (1, ["B"])] 50 10).2.1 25 ?_
    simp [scaleCandidates, colCandidate, nodeValueOf, lookupA,
      List.filterMap_cons, String.reduceEq]
    norm_num
  · have := (C2_positionNodes_scale [("A", ⟨"A", 0, 2, 2⟩),
      ("B", ⟨"B", 2, 0, 2⟩)] [(0, ["A"]), (1, ["B"])] 50 10).2.2.2.1
      [("A", 0), ("B", 1)] .horizontal ⟨0, 100, 0, 50⟩ 20 "A"
      ⟨0, 0, 20, 50, 2⟩ hl
    simpa using this

theorem computeFlowsAux_length (positions : List (String × NodeGeom))
    (orientation : Orientation) :
    ∀ (data : List Flow) (outO inO : List (String × ℚ)),
    (computeFlowsAux positions orientation data outO inO).length =
      data.length := by
  intro data
  induction data with
  | nil => intro outO inO; rfl
  | cons dp rest ih =>
    intro outO inO
    rw [computeFlowsAux]
    by_cases hv : isValidFlow dp = false
    · rw [if_pos hv]
      simp [ih]
    · rw [if_neg hv]
      cases hf : lookupA positions dp.«from» with
      | none => simp [ih]
      | some fromPos =>
        cases ht : lookupA positions dp.«to» with
        | none => simp [ih]
        | some toPos => simp [ih]

theorem computeFlowsAux_getElem (positions : List (String × NodeGeom))
    (orientation : Orientation) :
    ∀ (data : List Flow) (outO inO : List (String × ℚ)) (i : ℕ) (dp : Flow),
    data[i]? = some dp →
    ∃ slot, (computeFlowsAux positions orientation data outO inO)[i]? =
        some slot ∧
      (slot = none ↔
        ¬(isValidFlow dp = true ∧
          (lookupA positions dp.«from»).isSome = true ∧
          (lookupA positions dp.«to»).isSome = true)) ∧
      (∀ b, slot = some b →
        b.«from» = dp.«from» ∧ b.«to» = dp.«to» ∧ b.value = dp.flow) := by
  intro data
  induction data with
  | nil => intro outO inO i dp h; simp at h
  | cons dp₀ rest ih =>
    intro outO inO i dp h
    cases i with
    | zero =>
      simp only [List.getElem?_cons_zero] at h
      obtain rfl := Option.some_injective _ h
      rw [computeFlowsAux]
      by_cases hv : isValidFlow dp₀ = false
      · rw [if_pos hv]
        refine ⟨none, by simp, ?_, by simp⟩
        simp [hv]
      · rw [if_neg hv]
        rw [Bool.not_eq_false] at hv
        cases hf : lookupA positions dp₀.«from» with
        | none =>
          refine ⟨none, by simp, ?_, by simp⟩
          simp [hf]
        | some fromPos =>
          cases ht : lookupA positions dp₀.«to» with
          | none =>
            refine ⟨none, by simp, ?_, by simp⟩
            simp [hf, ht]
          | some toPos =>
            dsimp only
            refine ⟨_, List.getElem?_cons_zero, ?_, ?_⟩
            · simp only [reduceCtorEq, false_iff]
              intro hcon
              exact hcon ⟨hv, by simp [hf], by simp [ht]⟩
            · intro b hb
              obtain rfl := Option.some_injective _ hb
              cases orientation <;> simp [mkBand]
    | succ n =>
      simp only [List.getElem?_cons_succ] at h
      rw [computeFlowsAux]
      by_cases hv : isValidFlow dp₀ = false
      · rw [if_pos hv]
        obtain ⟨slot, hs, h1, h2⟩ := ih outO inO n dp h
        exact ⟨slot, by simpa using hs, h1, h2⟩
      · rw [if_neg hv]
        cases hf : lookupA positions dp₀.«from» with
        | none =>
          obtain ⟨slot, hs, h1, h2⟩ := ih outO inO n dp h
          exact ⟨slot, by simpa using hs, h1, h2⟩
        | some fromPos =>
          cases ht : lookupA positions dp₀.«to» with
          | none =>
            obtain ⟨slot, hs, h1, h2⟩ := ih outO inO n dp h
            exact ⟨slot, by simpa using hs, h1, h2⟩
          | some toPos =>
            dsimp only
            obtain ⟨slot, hs, h1, h2⟩ := ih _ _ n dp h
            exact ⟨slot, by simpa using hs, h1, h2⟩

/-- C9: `_computeFlows` returns one slot per input datum; a slot is `null`
exactly when its datum fails `isValidFlow` or an endpoint has no node
position; a non-null slot carries the same `from`, `to` and
`value = flow` as its datum. -/
theorem C9_computeFlows_alignment :
    ∀ (data : List Flow) (positions : List (String × NodeGeom))
      (orientation : Orientation),
    (computeFlows data positions orientation).length = data.length ∧
    ∀ (i : ℕ) (dp : Flow), data[i]? = some dp →
      ∃ slot, (computeFlows data positions orientation)[i]? = some slot ∧
        (slot = none ↔
          ¬(isValidFlow dp = true ∧
            (lookupA positions dp.«from»).isSome = true ∧
            (lookupA positions dp.«to»).isSome = true)) ∧
        (∀ b, slot = some b →
          b.«from» = dp.«from» ∧ b.«to» = dp.«to» ∧ b.value = dp.flow) := by
  intro data positions orientation
  constructor
  · exact computeFlowsAux_length positions orientation data _ _
  · intro i dp h
    exact computeFlowsAux_getElem positions orientation data _ _ i dp h

theorem C9_computeFlows_alignment_witness :
    ([⟨"A", "B", 2⟩, ⟨"A", "B", 0⟩, ⟨"C", "D", 1⟩] : List Flow)[1]? =
      some ⟨"A", "B", 0⟩ ∧
    (computeFlows [⟨"A", "B", 2⟩, ⟨"A", "B", 0⟩, ⟨"C", "D", 1⟩]
      [("A", ⟨0, 0, 20, 50, 2⟩), ("B", ⟨80, 0, 20, 50, 2⟩)]
      .horizontal).length = 3 ∧
    (∃ slot, (computeFlows [⟨"A", "B", 2⟩, ⟨"A", "B", 0⟩, ⟨"C", "D", 1⟩]
        [("A", ⟨0, 0, 20, 50, 2⟩), ("B", ⟨80, 0, 20, 50, 2⟩)]
        .horizontal)[1]? = some slot ∧
      (slot = none ↔
        ¬(isValidFlow ⟨"A", "B", 0⟩ = true ∧
          (lookupA [("A", (⟨0, 0, 20, 50, 2⟩ : NodeGeom)),
            ("B", ⟨80, 0, 20, 50, 2⟩)] "A").isSome = true ∧
          (lookupA [("A", (⟨0, 0, 20, 50, 2⟩ : NodeGeom)),
            ("B", ⟨80, 0, 20, 50, 2⟩)] "B").isSome = true)) ∧
      (∀ b, slot = some b →
        b.«from» = "A" ∧ b.«to» = "B" ∧ b.value = 0)) := by
  refine ⟨by decide, ?_, ?_⟩
  · exact (C9_computeFlows_alignment [⟨"A", "B", 2⟩, ⟨"A", "B", 0⟩,
      ⟨"C", "D", 1⟩] [("A", ⟨0, 0, 20, 50, 2⟩), ("B", ⟨80, 0, 20, 50, 2⟩)]
      .horizontal).1
  · exact (C9_computeFlows_alignment [⟨"A", "B", 2⟩, ⟨"A", "B", 0⟩,
      ⟨"C", "D", 1⟩] [("A", ⟨0, 0, 20, 50, 2⟩), ("B", ⟨80, 0, 20, 50, 2⟩)]
      .horizontal).2 1 ⟨"A", "B", 0⟩ (by decide)

/-- A `groupStep` keeps every already-bucketed id bucketed, and buckets its
own entry. -/
theorem groupStep_mem (groups : List (ℤ × List String)) (p : String × ℤ)
    (id : String) (l : ℤ)
    (h : (p = (id, l)) ∨ ∃ xs, lookupA groups l = some xs ∧ id ∈ xs) :
    ∃ xs, lookupA (groupStep groups p) l = some xs ∧ id ∈ xs := by
  unfold groupStep
  rcases h with rfl | ⟨xs, hxs, hid⟩
  · cases hg : lookupA groups l with
    | some ys => exact ⟨ys ++ [id], lookupA_setA_self _ _ _, by simp⟩
    | none => exact ⟨[id], lookupA_setA_self _ _ _, by simp⟩
  · by_cases hpl : p.2 = l
    · subst hpl
      rw [hxs]
      exact ⟨xs ++ [p.1], lookupA_setA_self _ _ _, by simp [hid]⟩
    · cases hg : lookupA groups p.2 with
      | some ys =>
        rw [lookupA_setA_ne _ _ _ _ hpl]
        exact ⟨xs, hxs, hid⟩
      | none =>
        rw [lookupA_setA_ne _ _ _ _ hpl]
        exact ⟨xs, hxs, hid⟩

/-- Every levels entry lands in its level's bucket of `groupByLevel`. -/
theorem groupByLevel_mem (levels : List (String × ℤ)) (id : String) (l : ℤ)
    (h : (id, l) ∈ levels) :
    ∃ xs, lookupA (groupByLevel levels) l = some xs ∧ id ∈ xs := by
  have aux : ∀ (entries : List (String × ℤ)) (acc : List (ℤ × List String)),
      ((id, l) ∈ entries ∨ ∃ xs, lookupA acc l = some xs ∧ id ∈ xs) →
      ∃ xs, lookupA (entries.foldl groupStep acc) l = some xs ∧ id ∈ xs := by
    intro entries
    induction entries with
    | nil =>
      intro acc h
      rcases h with h | h
      · simp at h
      · exact h
    | cons p rest ih =>
      intro acc h
      rw [List.foldl_cons]
      rcases h with h | h
      · rcases List.mem_cons.mp h with rfl | h
        · exact ih _ (Or.inr (groupStep_mem acc _ id l (Or.inl rfl)))
        · exact ih _ (Or.inl h)
      · exact ih _ (Or.inr (groupStep_mem acc p id l (Or.inr h)))
  exact aux levels [] (Or.inl h)

/-- `placeNode` never drops a position entry. -/
theorem placeNode_preserves_isSome (nodes : List (String × Node))
    (scale nodeWidth nodePadding : ℚ) (orientation : Orientation)
    (levelPos : ℚ) (st : List (String × NodeGeom) × ℚ) (i id : String)
    (h : (lookupA st.1 id).isSome = true) :
    (lookupA (placeNode nodes scale nodeWidth nodePadding orientation
      levelPos st i).1 id).isSome = true := by
  rw [placeNode_lookup]
  by_cases hii : i = id
  · rw [if_pos hii]; rfl
  · rw [if_neg hii]; exact h

theorem foldl_placeNode_preserves_isSome (nodes : List (String × Node))
    (scale nodeWidth nodePadding : ℚ) (orientation : Orientation)
    (levelPos : ℚ) :
    ∀ (ids : List String) (st : List (String × NodeGeom) × ℚ) (id : String),
    (lookupA st.1 id).isSome = true →
    (lookupA (ids.foldl (placeNode nodes scale nodeWidth nodePadding
      orientation levelPos) st).1 id).isSome = true := by
  intro ids
  induction ids with
  | nil => intro st id h; exact h
  | cons i rest ih =>
    intro st id h
    rw [List.foldl_cons]
    exact ih _ id (placeNode_preserves_isSome nodes scale nodeWidth
      nodePadding orientation levelPos st i id h)

/-- After a column's inner fold, every id of the column has a position. -/
theorem foldl_placeNode_covers (nodes : List (String × Node))
    (scale nodeWidth nodePadding : ℚ) (orientation : Orientation)
    (levelPos : ℚ) :
    ∀ (ids : List String) (st : List (String × NodeGeom) × ℚ) (id : String),
    id ∈ ids →
    (lookupA (ids.foldl (placeNode nodes scale nodeWidth nodePadding
      orientation levelPos) st).1 id).isSome = true := by
  intro ids
  induction ids with
  | nil => intro st id h; simp at h
  | cons i rest ih =>
    intro st id h
    rw [List.foldl_cons]
    rcases List.mem_cons.mp h with rfl | h
    · refine foldl_placeNode_preserves_isSome nodes scale nodeWidth
        nodePadding orientation levelPos rest _ id ?_
      rw [placeNode_lookup, if_pos rfl]
      rfl
    · exact ih _ id h

theorem placeColumn_preserves_isSome (nodes : List (String × Node))
    (scale nodeWidth nodePadding nodeAxisLength nodeAxisStart levelAxisStart
      levelAxisLength : ℚ) (levelCount : ℤ) (levelSpacing : ℚ)
    (orientation : Orientation) (acc : List (String × NodeGeom))
    (col : ℤ × List String) (id : String)
    (h : (lookupA acc id).isSome = true) :
    (lookupA (placeColumn nodes scale nodeWidth nodePadding nodeAxisLength
      nodeAxisStart levelAxisStart levelAxisLength levelCount levelSpacing
      orientation acc col) id).isSome = true := by
  unfold placeColumn
  exact foldl_placeNode_preserves_isSome nodes scale nodeWidth nodePadding
    orientation _ col.2 _ id h

/-- Every id listed in some column of `nodesByLevel` gets a position. -/
theorem positionNodes_covers (nodes : List (String × Node))
    (levels : List (String × ℤ)) (nodesByLevel : List (ℤ × List String))
    (orientation : Orientation) (chartArea : ChartArea)
    (nodeWidth nodePadding : ℚ) (col : ℤ × List String) (id : String)
    (hcol : col ∈ nodesByLevel) (hid : id ∈ col.2) :
    (lookupA (positionNodes nodes levels nodesByLevel orientation chartArea
      nodeWidth nodePadding) id).isSome = true := by
  unfold positionNodes
  have aux : ∀ (cols : List (ℤ × List String)) (acc : List (String × NodeGeom))
      (scale nodeAxisLength nodeAxisStart levelAxisStart levelAxisLength : ℚ)
      (levelCount : ℤ) (levelSpacing : ℚ),
      (col ∈ cols ∨ (lookupA acc id).isSome = true) →
      (lookupA (cols.foldl (placeColumn nodes scale nodeWidth nodePadding
        nodeAxisLength nodeAxisStart levelAxisStart levelAxisLength
        levelCount levelSpacing orientation) acc) id).isSome = true := by
    intro cols
    induction cols with
    | nil =>
      intro acc scale nal nas las lal lc ls h
      rcases h with h | h
      · simp at h
      · exact h
    | cons c rest ih =>
      intro acc scale nal nas las lal lc ls h
      rw [List.foldl_cons]
      rcases h with h | h
      · rcases List.mem_cons.mp h with rfl | h
        · refine ih _ scale nal nas las lal lc ls (Or.inr ?_)
          unfold placeColumn
          exact foldl_placeNode_covers nodes scale nodeWidth nodePadding
            orientation _ col.2 _ id hid
        · exact ih _ scale nal nas las lal lc ls (Or.inl h)
      · refine ih _ scale nal nas las lal lc ls (Or.inr ?_)
        exact placeColumn_preserves_isSome nodes scale nodeWidth nodePadding
          nal nas las lal lc ls orientation acc c id h
  exact aux nodesByLevel [] _ _ _ _ _ _ _ (Or.inl hcol)

/-- Node-axis center coordinate of a band at its source attachment
(`y` horizontal, `x` vertical). -/
def srcCenter (orientation : Orientation) (b : FlowBand) : ℚ :=
  if orientation = .vertical then b.x else b.y

/-- Node-axis center coordinate of a band at its target attachment
(`y2` horizontal, `x2` vertical). -/
def tgtCenter (orientation : Orientation) (b : FlowBand) : ℚ :=
  if orientation = .vertical then b.x2 else b.y2

/-- The bands leaving node `id`, in output order. -/
def sourceBands (flows : List (Option FlowBand)) (id : String) :
    List FlowBand :=
  (flows.filterMap (fun s => s)).filter (fun b => decide (b.«from» = id))

/-- The bands entering node `id`, in output order. -/
def targetBands (flows : List (Option FlowBand)) (id : String) :
    List FlowBand :=
  (flows.filterMap (fun s => s)).filter (fun b => decide (b.«to» = id))

theorem mkBand_from (o : Orientation) (dp : Flow) (fp tp : NodeGeom)
    (oo io : ℚ) : (mkBand o dp fp tp oo io).«from» = dp.«from» := by
  cases o <;> simp [mkBand]

theorem mkBand_to (o : Orientation) (dp : Flow) (fp tp : NodeGeom)
    (oo io : ℚ) : (mkBand o dp fp tp oo io).«to» = dp.«to» := by
  cases o <;> simp [mkBand]

theorem mkBand_height (o : Orientation) (dp : Flow) (fp tp : NodeGeom)
    (oo io : ℚ) :
    (mkBand o dp fp tp oo io).height = bandHeight o dp.flow fp := by
  cases o <;> simp [mkBand]

theorem mkBand_height2 (o : Orientation) (dp : Flow) (fp tp : NodeGeom)
    (oo io : ℚ) :
    (mkBand o dp fp tp oo io).height2 = bandHeight o dp.flow tp := by
  cases o <;> simp [mkBand]

theorem mkBand_srcCenter (o : Orientation) (dp : Flow) (fp tp : NodeGeom)
    (oo io : ℚ) :
    srcCenter o (mkBand o dp fp tp oo io) =
      posStart o fp + oo + bandHeight o dp.flow fp / 2 := by
  cases o <;> simp [mkBand, srcCenter, posStart]

theorem mkBand_tgtCenter (o : Orientation) (dp : Flow) (fp tp : NodeGeom)
    (oo io : ℚ) :
    tgtCenter o (mkBand o dp fp tp oo io) =
      posStart o tp + io + bandHeight o dp.flow tp / 2 := by
  cases o <;> simp [mkBand, tgtCenter, posStart]

theorem bandHeight_eq (o : Orientation) (fl : ℚ) (pos : NodeGeom) :
    bandHeight o fl pos =
      if 0 < pos.value then fl / pos.value * posExtent o pos else 0 := by
  cases o <;> simp [bandHeight, posExtent]

theorem sourceBands_cons_some (b : FlowBand) (flows : List (Option FlowBand))
    (id : String) :
    sourceBands (some b :: flows) id =
      if b.«from» = id then b :: sourceBands flows id
      else sourceBands flows id := by
  unfold sourceBands
  rw [List.filterMap_cons]
  dsimp only
  rw [List.filter_cons]
  by_cases h : b.«from» = id <;> simp [h]

theorem sourceBands_cons_none (flows : List (Option FlowBand)) (id : String) :
    sourceBands (none :: flows) id = sourceBands flows id := by
  unfold sourceBands
  rw [List.filterMap_cons]

theorem targetBands_cons_some (b : FlowBand) (flows : List (Option FlowBand))
    (id : String) :
    targetBands (some b :: flows) id =
      if b.«to» = id then b :: targetBands flows id
      else targetBands flows id := by
  unfold targetBands
  rw [List.filterMap_cons]
  dsimp only
  rw [List.filter_cons]
  by_cases h : b.«to» = id <;> simp [h]

theorem targetBands_cons_none (flows : List (Option FlowBand)) (id : String) :
    targetBands (none :: flows) id = targetBands flows id := by
  unfold targetBands
  rw [List.filterMap_cons]

/-- Source-side induction invariant of the `_computeFlows` loop: over an
all-valid, all-positioned suffix, the bands leaving `id` have exactly the
per-edge heights `bandHeight` against `id`'s geometry, and each one's
attachment center is the accumulator value plus the heights of its
predecessors plus half its own height. -/
theorem computeFlowsAux_source_spec (positions : List (String × NodeGeom))
    (orientation : Orientation) (id : String) (pos : NodeGeom)
    (hpos : lookupA positions id = some pos) :
    ∀ (data : List Flow) (outO inO : List (String × ℚ)),
    (∀ f ∈ data, isValidFlow f = true) →
    (∀ f ∈ data, (lookupA positions f.«from»).isSome = true ∧
      (lookupA positions f.«to»).isSome = true) →
    ((sourceBands (computeFlowsAux positions orientation data outO inO)
        id).map FlowBand.height =
      (data.filter (fun f => decide (f.«from» = id))).map
        (fun f => bandHeight orientation f.flow pos)) ∧
    (∀ (k : ℕ) (b : FlowBand),
      (sourceBands (computeFlowsAux positions orientation data
        outO inO) id)[k]? = some b →
      srcCenter orientation b =
        posStart orientation pos + (lookupA outO id).getD 0 +
        (((sourceBands (computeFlowsAux positions orientation data outO inO)
          id).take k).map FlowBand.height).sum +
        b.height / 2) := by
  intro data
  induction data with
  | nil =>
    intro outO inO _ _
    constructor
    · rfl
    · intro k b hb
      simp [computeFlowsAux, sourceBands] at hb
  | cons dp rest ih =>
    intro outO inO hall hposall
    have hv : isValidFlow dp = true := hall dp (List.mem_cons_self _ _)
    obtain ⟨⟨fromPos, hf⟩, ⟨toPos, ht⟩⟩ :
        (∃ p, lookupA positions dp.«from» = some p) ∧
        (∃ p, lookupA positions dp.«to» = some p) := by
      obtain ⟨h1, h2⟩ := hposall dp (List.mem_cons_self _ _)
      exact ⟨Option.isSome_iff_exists.mp h1, Option.isSome_iff_exists.mp h2⟩
    have hallR : ∀ f ∈ rest, isValidFlow f = true :=
      fun f hfm => hall f (List.mem_cons_of_mem _ hfm)
    have hposR : ∀ f ∈ rest, (lookupA positions f.«from»).isSome = true ∧
        (lookupA positions f.«to»).isSome = true :=
      fun f hfm => hposall f (List.mem_cons_of_mem _ hfm)
    have hvne : ¬ (isValidFlow dp = false) := by simp [hv]
    have hstep : computeFlowsAux positions orientation (dp :: rest) outO inO =
        some (mkBand orientation dp fromPos toPos
          ((lookupA outO dp.«from»).getD 0) ((lookupA inO dp.«to»).getD 0)) ::
        computeFlowsAux positions orientation rest
          (setA outO dp.«from»
            ((lookupA outO dp.«from»).getD 0 +
              bandHeight orientation dp.flow fromPos))
          (setA inO dp.«to»
            ((lookupA inO dp.«to»).getD 0 +
              bandHeight orientation dp.flow toPos)) := by
      rw [computeFlowsAux, if_neg hvne, hf, ht]
    rw [hstep]
    obtain ⟨ih1, ih2⟩ := ih
      (setA outO dp.«from»
        ((lookupA outO dp.«from»).getD 0 +
          bandHeight orientation dp.flow fromPos))
      (setA inO dp.«to»
        ((lookupA inO dp.«to»).getD 0 +
          bandHeight orientation dp.flow toPos))
      hallR hposR
    by_cases hdp : dp.«from» = id
    · have hfp : fromPos = pos := by
        rw [hdp] at hf
        exact Option.some_injective _ (hf.symm.trans hpos)
      subst hfp
      have hbs : sourceBands (some (mkBand orientation dp fromPos toPos
          ((lookupA outO dp.«from»).getD 0) ((lookupA inO dp.«to»).getD 0)) ::
          computeFlowsAux positions orientation rest
            (setA outO dp.«from»
              ((lookupA outO dp.«from»).getD 0 +
                bandHeight orientation dp.flow fromPos))
            (setA inO dp.«to»
              ((lookupA inO dp.«to»).getD 0 +
                bandHeight orientation dp.flow toPos))) id =
          mkBand orientation dp fromPos toPos
            ((lookupA outO dp.«from»).getD 0)
            ((lookupA inO dp.«to»).getD 0) ::
          sourceBands (computeFlowsAux positions orientation rest
            (setA outO dp.«from»
              ((lookupA outO dp.«from»).getD 0 +
                bandHeight orientation dp.flow fromPos))
            (setA inO dp.«to»
              ((lookupA inO dp.«to»).getD 0 +
                bandHeight orientation dp.flow toPos))) id := by
        rw [sourceBands_cons_some, mkBand_from, if_pos hdp]
      rw [hbs]
      have hoff : (lookupA (setA outO dp.«from»
          ((lookupA outO dp.«from»).getD 0 +
            bandHeight orientation dp.flow fromPos)) id).getD 0 =
          (lookupA outO id).getD 0 +
            bandHeight orientation dp.flow fromPos := by
        rw [hdp, lookupA_setA_self]
        rfl
      constructor
      · rw [List.map_cons, mkBand_height, ih1, List.filter_cons,
          if_pos (by simp [hdp])]
        rfl
      · intro k b hb
        cases k with
        | zero =>
          rw [List.getElem?_cons_zero] at hb
          obtain rfl := Option.some_injective _ hb
          simp only [List.take_zero, List.map_nil, List.sum_nil,
            mkBand_srcCenter, mkBand_height]
          rw [hdp]
          ring
        | succ k =>
          rw [List.getElem?_cons_succ] at hb
          have := ih2 k b hb
          rw [hoff] at this
          simp only [List.take_succ_cons, List.map_cons, List.sum_cons,
            mkBand_height]
          rw [this]
          ring
    · have hbs : sourceBands (some (mkBand orientation dp fromPos toPos
          ((lookupA outO dp.«from»).getD 0) ((lookupA inO dp.«to»).getD 0)) ::
          computeFlowsAux positions orientation rest
            (setA outO dp.«from»
              ((lookupA outO dp.«from»).getD 0 +
                bandHeight orientation dp.flow fromPos))
            (setA inO dp.«to»
              ((lookupA inO dp.«to»).getD 0 +
                bandHeight orientation dp.flow toPos))) id =
          sourceBands (computeFlowsAux positions orientation rest
            (setA outO dp.«from»
              ((lookupA outO dp.«from»).getD 0 +
                bandHeight orientation dp.flow fromPos))
            (setA inO dp.«to»
              ((lookupA inO dp.«to»).getD 0 +
                bandHeight orientation dp.flow toPos))) id := by
        rw [sourceBands_cons_some, mkBand_from, if_neg hdp]
      rw [hbs]
      have hoff : lookupA (setA outO dp.«from»
          ((lookupA outO dp.«from»).getD 0 +
            bandHeight orientation dp.flow fromPos)) id =
          lookupA outO id := lookupA_setA_ne _ _ _ _ hdp
      constructor
      · rw [ih1, List.filter_cons, if_neg (by simp [hdp])]
      · intro k b hb
        have := ih2 k b hb
        rw [hoff] at this
        exact this

/-- Target-side induction invariant of the `_computeFlows` loop, symmetric
to `computeFlowsAux_source_spec`: bands entering `id`, their `height2`
thicknesses, and the `inO` accumulator. -/
theorem computeFlowsAux_target_spec (positions : List (String × NodeGeom))
    (orientation : Orientation) (id : String) (pos : NodeGeom)
    (hpos : lookupA positions id = some pos) :
    ∀ (data : List Flow) (outO inO : List (String × ℚ)),
    (∀ f ∈ data, isValidFlow f = true) →
    (∀ f ∈ data, (lookupA positions f.«from»).isSome = true ∧
      (lookupA positions f.«to»).isSome = true) →
    ((targetBands (computeFlowsAux positions orientation data outO inO)
        id).map FlowBand.height2 =
      (data.filter (fun f => decide (f.«to» = id))).map
        (fun f => bandHeight orientation f.flow pos)) ∧
    (∀ (k : ℕ) (b : FlowBand),
      (targetBands (computeFlowsAux positions orientation data
        outO inO) id)[k]? = some b →
      tgtCenter orientation b =
        posStart orientation pos + (lookupA inO id).getD 0 +
        (((targetBands (computeFlowsAux positions orientation data outO inO)
          id).take k).map FlowBand.height2).sum +
        b.height2 / 2) := by
  intro data
  induction data with
  | nil =>
    intro outO inO _ _
    constructor
    · rfl
    · intro k b hb
      simp [computeFlowsAux, targetBands] at hb
  | cons dp rest ih =>
    intro outO inO hall hposall
    have hv : isValidFlow dp = true := hall dp (List.mem_cons_self _ _)
    obtain ⟨⟨fromPos, hf⟩, ⟨toPos, ht⟩⟩ :
        (∃ p, lookupA positions dp.«from» = some p) ∧
        (∃ p, lookupA positions dp.«to» = some p) := by
      obtain ⟨h1, h2⟩ := hposall dp (List.mem_cons_self _ _)
      exact ⟨Option.isSome_iff_exists.mp h1, Option.isSome_iff_exists.mp h2⟩
    have hallR : ∀ f ∈ rest, isValidFlow f = true :=
      fun f hfm => hall f (List.mem_cons_of_mem _ hfm)
    have hposR : ∀ f ∈ rest, (lookupA positions f.«from»).isSome = true ∧
        (lookupA positions f.«to»).isSome = true :=
      fun f hfm => hposall f (List.mem_cons_of_mem _ hfm)
    have hvne : ¬ (isValidFlow dp = false) := by simp [hv]
    have hstep : computeFlowsAux positions orientation (dp :: rest) outO inO =
        some (mkBand orientation dp fromPos toPos
          ((lookupA outO dp.«from»).getD 0) ((lookupA inO dp.«to»).getD 0)) ::
        computeFlowsAux positions orientation rest
          (setA outO dp.«from»
            ((lookupA outO dp.«from»).getD 0 +
              bandHeight orientation dp.flow fromPos))
          (setA inO dp.«to»
            ((lookupA inO dp.«to»).getD 0 +
              bandHeight orientation dp.flow toPos)) := by
      rw [computeFlowsAux, if_neg hvne, hf, ht]
    rw [hstep]
    obtain ⟨ih1, ih2⟩ := ih
      (setA outO dp.«from»
        ((lookupA outO dp.«from»).getD 0 +
          bandHeight orientation dp.flow fromPos))
      (setA inO dp.«to»
        ((lookupA inO dp.«to»).getD 0 +
          bandHeight orientation dp.flow toPos))
      hallR hposR
    by_cases hdp : dp.«to» = id
    · have htp : toPos = pos := by
        rw [hdp] at ht
        exact Option.some_injective _ (ht.symm.trans hpos)
      subst htp
      have hbs : targetBands (some (mkBand orientation dp fromPos toPos
          ((lookupA outO dp.«from»).getD 0) ((lookupA inO dp.«to»).getD 0)) ::
          computeFlowsAux positions orientation rest
            (setA outO dp.«from»
              ((lookupA outO dp.«from»).getD 0 +
                bandHeight orientation dp.flow fromPos))
            (setA inO dp.«to»
              ((lookupA inO dp.«to»).getD 0 +
                bandHeight orientation dp.flow toPos))) id =
          mkBand orientation dp fromPos toPos
            ((lookupA outO dp.«from»).getD 0)
            ((lookupA inO dp.«to»).getD 0) ::
          targetBands (computeFlowsAux positions orientation rest
            (setA outO dp.«from»
              ((lookupA outO dp.«from»).getD 0 +
                bandHeight orientation dp.flow fromPos))
            (setA inO dp.«to»
              ((lookupA inO dp.«to»).getD 0 +
                bandHeight orientation dp.flow toPos))) id := by
        rw [targetBands_cons_some, mkBand_to, if_pos hdp]
      rw [hbs]
      have hoff : (lookupA (setA inO dp.«to»
          ((lookupA inO dp.«to»).getD 0 +
            bandHeight orientation dp.flow toPos)) id).getD 0 =
          (lookupA inO id).getD 0 +
            bandHeight orientation dp.flow toPos := by
        rw [hdp, lookupA_setA_self]
        rfl
      constructor
      · rw [List.map_cons, mkBand_height2, ih1, List.filter_cons,
          if_pos (by simp [hdp])]
        rfl
      · intro k b hb
        cases k with
        | zero =>
          rw [List.getElem?_cons_zero] at hb
          obtain rfl := Option.some_injective _ hb
          simp only [List.take_zero, List.map_nil, List.sum_nil,
            mkBand_tgtCenter, mkBand_height2]
          rw [hdp]
          ring
        | succ k =>
          rw [List.getElem?_cons_succ] at hb
          have := ih2 k b hb
          rw [hoff] at this
          simp only [List.take_succ_cons, List.map_cons, List.sum_cons,
            mkBand_height2]
          rw [this]
          ring
    · have hbs : targetBands (some (mkBand orientation dp fromPos toPos
          ((lookupA outO dp.«from»).getD 0) ((lookupA inO dp.«to»).getD 0)) ::
          computeFlowsAux positions orientation rest
            (setA outO dp.«from»
              ((lookupA outO dp.«from»).getD 0 +
                bandHeight orientation dp.flow fromPos))
            (setA inO dp.«to»
              ((lookupA inO dp.«to»).getD 0 +
                bandHeight orientation dp.flow toPos))) id =
          targetBands (computeFlowsAux positions orientation rest
            (setA outO dp.«from»
              ((lookupA outO dp.«from»).getD 0 +
                bandHeight orientation dp.flow fromPos))
            (setA inO dp.«to»
              ((lookupA inO dp.«to»).getD 0 +
                bandHeight orientation dp.flow toPos))) id := by
        rw [targetBands_cons_some, mkBand_to, if_neg hdp]
      rw [hbs]
      have hoff : lookupA (setA inO dp.«to»
          ((lookupA inO dp.«to»).getD 0 +
            bandHeight orientation dp.flow toPos)) id =
          lookupA inO id := lookupA_setA_ne _ _ _ _ hdp
      constructor
      · rw [ih1, List.filter_cons, if_neg (by simp [hdp])]
      · intro k b hb
        have := ih2 k b hb
        rw [hoff] at this
        exact this

theorem sum_map_div_mul (v E : ℚ) :
    ∀ (fls : List ℚ),
    (fls.map (fun fl => fl / v * E)).sum = fls.sum / v * E := by
  intro fls
  induction fls with
  | nil => simp
  | cons a l ih =>
    simp only [List.map_cons, List.sum_cons, ih]
    ring

theorem sum_map_bandHeight (o : Orientation) (pos : NodeGeom)
    (fls : List ℚ) :
    (fls.map (fun fl => bandHeight o fl pos)).sum =
      if 0 < pos.value then fls.sum / pos.value * posExtent o pos else 0 := by
  by_cases h : 0 < pos.value
  · rw [if_pos h]
    have hfun : (fun fl => bandHeight o fl pos) =
        (fun fl => fl / pos.value * posExtent o pos) := by
      funext fl
      rw [bandHeight_eq, if_pos h]
    rw [hfun, sum_map_div_mul]
  · rw [if_neg h]
    have hfun : (fun fl => bandHeight o fl pos) = (fun _ => (0 : ℚ)) := by
      funext fl
      rw [bandHeight_eq, if_neg h]
    rw [hfun]
    simp

theorem sum_bandHeight_le (o : Orientation) (pos : NodeGeom) (fls : List ℚ)
    (hsum : fls.sum ≤ pos.value) (hE : 0 ≤ posExtent o pos) :
    (fls.map (fun fl => bandHeight o fl pos)).sum ≤ posExtent o pos := by
  rw [sum_map_bandHeight]
  by_cases h : 0 < pos.value
  · rw [if_pos h]
    have h1 : fls.sum / pos.value ≤ 1 := (div_le_one h).mpr hsum
    calc fls.sum / pos.value * posExtent o pos
        ≤ 1 * posExtent o pos := mul_le_mul_of_nonneg_right h1 hE
      _ = posExtent o pos := one_mul _
  · rw [if_neg h]; exact hE

theorem outgoingSum_le_nodeValue (vdata : List Flow) (id : String) :
    outgoingSum vdata id ≤ nodeValueOf (buildNodes vdata) id := by
  unfold nodeValueOf
  rw [buildNodes_lookup]
  by_cases hex : ∃ f ∈ vdata, f.«from» = id ∨ f.«to» = id
  · rw [if_pos hex]
    exact le_max_right _ _
  · rw [if_neg hex]
    push_neg at hex
    have : vdata.filter (fun f => f.«from» = id) = [] := by
      rw [List.filter_eq_nil]
      intro f hf
      simp [(hex f hf).1]
    simp [outgoingSum, this]

theorem incomingSum_le_nodeValue (vdata : List Flow) (id : String) :
    incomingSum vdata id ≤ nodeValueOf (buildNodes vdata) id := by
  unfold nodeValueOf
  rw [buildNodes_lookup]
  by_cases hex : ∃ f ∈ vdata, f.«from» = id ∨ f.«to» = id
  · rw [if_pos hex]
    exact le_max_left _ _
  · rw [if_neg hex]
    push_neg at hex
    have : vdata.filter (fun f => f.«to» = id) = [] := by
      rw [List.filter_eq_nil]
      intro f hf
      simp [(hex f hf).2]
    simp [incomingSum, this]

theorem lookupA_zero_map (positions : List (String × NodeGeom)) (id : String) :
    (lookupA (positions.map (fun p => (p.1, (0 : ℚ)))) id).getD 0 = 0 := by
  have h := lookupA_map_value (fun _ : NodeGeom => (0 : ℚ)) positions id
  rw [h]
  cases lookupA positions id <;> rfl

/-- C10: with node positions built by `_positionNodes` from
`buildNodes`-aggregated nodes over the same validated flow list that
`_computeFlows` routes, the bands leaving a node stack consecutively (each
band's node-axis attachment center is the sum of its predecessors' source
thicknesses plus half its own, from the node's start edge), their total
source thickness is at most the node's node-axis extent (because the
outgoing total is at most `value = max(incoming, outgoing)`), and the
symmetric statements hold for the bands entering a node. -/
theorem C10_band_stacking :
    ∀ (vdata : List Flow) (cfg : List (String × Option ℤ))
      (orientation : Orientation) (area : ChartArea)
      (nodeWidth nodePadding : ℚ),
    (∀ f ∈ vdata, isValidFlow f = true) →
    ∀ (id : String) (pos : NodeGeom),
    lookupA (positionNodes (buildNodes vdata)
      (assignNodeLevels vdata (buildNodes vdata) cfg)
      (reorderNodes
        (groupByLevel (assignNodeLevels vdata (buildNodes vdata) cfg)) vdata)
      orientation area nodeWidth nodePadding) id = some pos →
    (∀ (k : ℕ) (b : FlowBand),
      (sourceBands (computeFlows vdata
        (positionNodes (buildNodes vdata)
          (assignNodeLevels vdata (buildNodes vdata) cfg)
          (reorderNodes (groupByLevel
            (assignNodeLevels vdata (buildNodes vdata) cfg)) vdata)
          orientation area nodeWidth nodePadding) orientation) id)[k]? =
        some b →
      srcCenter orientation b =
        posStart orientation pos +
        (((sourceBands (computeFlows vdata
          (positionNodes (buildNodes vdata)
            (assignNodeLevels vdata (buildNodes vdata) cfg)
            (reorderNodes (groupByLevel
              (assignNodeLevels vdata (buildNodes vdata) cfg)) vdata)
            orientation area nodeWidth nodePadding) orientation) id).take
          k).map FlowBand.height).sum +
        b.height / 2) ∧
    ((sourceBands (computeFlows vdata
        (positionNodes (buildNodes vdata)
          (assignNodeLevels vdata (buildNodes vdata) cfg)
          (reorderNodes (groupByLevel
            (assignNodeLevels vdata (buildNodes vdata) cfg)) vdata)
          orientation area nodeWidth nodePadding) orientation) id).map
        FlowBand.height).sum ≤ posExtent orientation pos ∧
    (∀ (k : ℕ) (b : FlowBand),
      (targetBands (computeFlows vdata
        (positionNodes (buildNodes vdata)
          (assignNodeLevels vdata (buildNodes vdata) cfg)
          (reorderNodes (groupByLevel
            (assignNodeLevels vdata (buildNodes vdata) cfg)) vdata)
          orientation area nodeWidth nodePadding) orientation) id)[k]? =
        some b →
      tgtCenter orientation b =
        posStart orientation pos +
        (((targetBands (computeFlows vdata
          (positionNodes (buildNodes vdata)
            (assignNodeLevels vdata (buildNodes vdata) cfg)
            (reorderNodes (groupByLevel
              (assignNodeLevels vdata (buildNodes vdata) cfg)) vdata)
            orientation area nodeWidth nodePadding) orientation) id).take
          k).map FlowBand.height2).sum +
        b.height2 / 2) ∧
    ((targetBands (computeFlows vdata
        (positionNodes (buildNodes vdata)
          (assignNodeLevels vdata (buildNodes vdata) cfg)
          (reorderNodes (groupByLevel
            (assignNodeLevels vdata (buildNodes vdata) cfg)) vdata)
          orientation area nodeWidth nodePadding) orientation) id).map
        FlowBand.height2).sum ≤ posExtent orientation pos := by
  intro vdata cfg orientation area nodeWidth nodePadding hall id pos hpos
  have hchain : ∀ (eid : String),
      (∃ f ∈ vdata, f.«from» = eid ∨ f.«to» = eid) →
      (lookupA (positionNodes (buildNodes vdata)
        (assignNodeLevels vdata (buildNodes vdata) cfg)
        (reorderNodes (groupByLevel
          (assignNodeLevels vdata (buildNodes vdata) cfg)) vdata)
        orientation area nodeWidth nodePadding) eid).isSome = true := by
    intro eid hex
    have hn : (lookupA (buildNodes vdata) eid).isSome = true := by
      rw [buildNodes_lookup, if_pos hex]
      rfl
    have hkeys : eid ∈ (buildNodes vdata).map Prod.fst :=
      (lookupA_isSome_iff _ _).mp hn
    have hlev := assignNodeLevels_isSome vdata (buildNodes vdata) cfg eid hkeys
    obtain ⟨l, hl⟩ := Option.isSome_iff_exists.mp hlev
    have hmem := lookupA_some_mem _ _ _ hl
    obtain ⟨xs, hxs, hid⟩ := groupByLevel_mem _ eid l hmem
    obtain ⟨ys, hys, hperm⟩ := reorderNodes_lookup_perm _ vdata l xs hxs
    exact positionNodes_covers (buildNodes vdata) _ _ orientation area
      nodeWidth nodePadding (l, ys) eid (lookupA_some_mem _ _ _ hys)
      (hperm.mem_iff.mpr hid)
  have hposall : ∀ f ∈ vdata,
      (lookupA (positionNodes (buildNodes vdata)
        (assignNodeLevels vdata (buildNodes vdata) cfg)
        (reorderNodes (groupByLevel
          (assignNodeLevels vdata (buildNodes vdata) cfg)) vdata)
        orientation area nodeWidth nodePadding) f.«from»).isSome = true ∧
      (lookupA (positionNodes (buildNodes vdata)
        (assignNodeLevels vdata (buildNodes vdata) cfg)
        (reorderNodes (groupByLevel
          (assignNodeLevels vdata (buildNodes vdata) cfg)) vdata)
        orientation area nodeWidth nodePadding) f.«to»).isSome = true :=
    fun f hf => ⟨hchain f.«from» ⟨f, hf, Or.inl rfl⟩,
      hchain f.«to» ⟨f, hf, Or.inr rfl⟩⟩
  obtain ⟨hext, hval⟩ := positionNodes_lookup_spec (buildNodes vdata)
    (assignNodeLevels vdata (buildNodes vdata) cfg)
    (reorderNodes (groupByLevel
      (assignNodeLevels vdata (buildNodes vdata) cfg)) vdata)
    orientation area nodeWidth nodePadding id pos hpos
  have hE : 0 ≤ posExtent orientation pos := by
    rw [hext]
    exact le_trans (by norm_num) (le_max_left 4 _)
  obtain ⟨hsrc1, hsrc2⟩ := computeFlowsAux_source_spec _ orientation id pos
    hpos vdata
    ((positionNodes (buildNodes vdata)
      (assignNodeLevels vdata (buildNodes vdata) cfg)
      (reorderNodes (groupByLevel
        (assignNodeLevels vdata (buildNodes vdata) cfg)) vdata)
      orientation area nodeWidth nodePadding).map (fun p => (p.1, (0 : ℚ))))
    ((positionNodes (buildNodes vdata)
      (assignNodeLevels vdata (buildNodes vdata) cfg)
      (reorderNodes (groupByLevel
        (assignNodeLevels vdata (buildNodes vdata) cfg)) vdata)
      orientation area nodeWidth nodePadding).map (fun p => (p.1, (0 : ℚ))))
    hall hposall
  obtain ⟨htgt1, htgt2⟩ := computeFlowsAux_target_spec _ orientation id pos
    hpos vdata
    ((positionNodes (buildNodes vdata)
      (assignNodeLevels vdata (buildNodes vdata) cfg)
      (reorderNodes (groupByLevel
        (assignNodeLevels vdata (buildNodes vdata) cfg)) vdata)
      orientation area nodeWidth nodePadding).map (fun p => (p.1, (0 : ℚ))))
    ((positionNodes (buildNodes vdata)
      (assignNodeLevels vdata (buildNodes vdata) cfg)
      (reorderNodes (groupByLevel
        (assignNodeLevels vdata (buildNodes vdata) cfg)) vdata)
      orientation area nodeWidth nodePadding).map (fun p => (p.1, (0 : ℚ))))
    hall hposall
  simp only [computeFlows]
  refine ⟨?_, ?_, ?_, ?_⟩
  · intro k b hb
    have := hsrc2 k b hb
    rw [lookupA_zero_map] at this
    rw [this]
    ring
  · rw [hsrc1]
    have hmm : (vdata.filter (fun f => decide (f.«from» = id))).map
        (fun f => bandHeight orientation f.flow pos) =
        ((vdata.filter (fun f => decide (f.«from» = id))).map Flow.flow).map
          (fun fl => bandHeight orientation fl pos) := by
      rw [List.map_map]
      rfl
    rw [hmm]
    refine sum_bandHeight_le orientation pos _ ?_ hE
    rw [hval]
    have : ((vdata.filter (fun f => decide (f.«from» = id))).map
        Flow.flow).sum = outgoingSum vdata id := by
      unfold outgoingSum
      rfl
    rw [this]
    exact outgoingSum_le_nodeValue vdata id
  · intro k b hb
    have := htgt2 k b hb
    rw [lookupA_zero_map] at this
    rw [this]
    ring
  · rw [htgt1]
    have hmm : (vdata.filter (fun f => decide (f.«to» = id))).map
        (fun f => bandHeight orientation f.flow pos) =
        ((vdata.filter (fun f => decide (f.«to» = id))).map Flow.flow).map
          (fun fl => bandHeight orientation fl pos) := by
      rw [List.map_map]
      rfl
    rw [hmm]
    refine sum_bandHeight_le orientation pos _ ?_ hE
    rw [hval]
    have : ((vdata.filter (fun f => decide (f.«to» = id))).map
        Flow.flow).sum = incomingSum vdata id := by
      unfold incomingSum
      rfl
    rw [this]
    exact incomingSum_le_nodeValue vdata id

theorem C10_band_stacking_witness :
    (∀ f ∈ ([⟨"A", "B", 2⟩] : List Flow), isValidFlow f = true) ∧
    lookupA (positionNodes (buildNodes [⟨"A", "B", 2⟩])
      (assignNodeLevels [⟨"A", "B", 2⟩] (buildNodes [⟨"A", "B", 2⟩]) [])
      (reorderNodes (groupByLevel
        (assignNodeLevels [⟨"A", "B", 2⟩] (buildNodes [⟨"A", "B", 2⟩]) []))
        [⟨"A", "B", 2⟩])
      .horizontal ⟨0, 100, 0, 50⟩ 20 10) "A" = some ⟨0, 0, 20, 50, 2⟩ ∧
    ((sourceBands (computeFlows [⟨"A", "B", 2⟩]
      (positionNodes (buildNodes [⟨"A", "B", 2⟩])
        (assignNodeLevels [⟨"A", "B", 2⟩] (buildNodes [⟨"A", "B", 2⟩]) [])
        (reorderNodes (groupByLevel
          (assignNodeLevels [⟨"A", "B", 2⟩] (buildNodes [⟨"A", "B", 2⟩]) []))
          [⟨"A", "B", 2⟩])
        .horizontal ⟨0, 100, 0, 50⟩ 20 10) .horizontal) "A").map
      FlowBand.height).sum ≤
      posExtent .horizontal (⟨0, 0, 20, 50, 2⟩ : NodeGeom) := by
  have h1 : ∀ f ∈ ([⟨"A", "B", 2⟩] : List Flow), isValidFlow f = true := by
    decide
  have h2 : lookupA (positionNodes (buildNodes [⟨"A", "B", 2⟩])
      (assignNodeLevels [⟨"A", "B", 2⟩] (buildNodes [⟨"A", "B", 2⟩]) [])
      (reorderNodes (groupByLevel
        (assignNodeLevels [⟨"A", "B", 2⟩] (buildNodes [⟨"A", "B", 2⟩]) []))
        [⟨"A", "B", 2⟩])
      .horizontal ⟨0, 100, 0, 50⟩ 20 10) "A" = some ⟨0, 0, 20, 50, 2⟩ := by
    simp [assignNodeLevels, levelsAfterBFS, pinPhase, pinStep, rootsOf,
      syntheticRoots, bfs, fallbackStep, fallbackLevel, buildNodes,
      buildNodesStep, ensureA, finalizeNode, groupByLevel, groupStep,
      reorderNodes, reorderColumn, sortByBarycenter, positionNodes,
      placeColumn, placeNode, scaleOf, scaleStep, nodeValueOf, setA,
      lookupA, String.reduceEq]
    norm_num
  exact ⟨h1, h2, (C10_band_stacking [⟨"A", "B", 2⟩] [] .horizontal
    ⟨0, 100, 0, 50⟩ 20 10 h1 "A" ⟨0, 0, 20, 50, 2⟩ h2).2.1⟩

end Sankey
